import Mathlib

/-!
# arm-kernel: page-table manager, bootstrap allocator, spinlock engine

A shallow embedding of `src/kernel/pmap.c`, `src/include/kernel/mm.h`,
`src/kernel/spinlock.c` and `src/platform/versatilepb/irq.c`.

* Machine words are natural numbers; every C operation that can leave the
  32-bit range is followed by an explicit reduction modulo `2 ^ 32`.
* Global variables (`kernel_vend`, `kernel_pend`, `kernel_pmap`, the static
  `placement_addr`) are fields of an explicit state record.
* The busy-wait loop of `_spin_lock` and the mapping loop of
  `pmap_steal_memory` take a fuel argument; running out of fuel is reported,
  never confused with a normal return.
* Primitives whose code is outside the translated files (`memset`,
  `atomic_test_and_set_bit`, `kassert`, the interrupt switches, `ROUND_UP`)
  are modelled from the specification and marked as such.
-/

namespace ArmKernel

/-! ## 32-bit machine arithmetic -/

/-- Number of values of a `uint32_t`. -/
def UINT32_MOD : Nat := 2 ^ 32

/-- Truncation of a natural number to a `uint32_t`. -/
def wrap32 (x : Nat) : Nat := x % UINT32_MOD

/-- The C operator `~` on a `uint32_t`. -/
def not32 (x : Nat) : Nat := 0xFFFFFFFF ^^^ wrap32 x

/-- The C operator `-` on two `uint32_t` values (wraps below zero). -/
def sub32 (a b : Nat) : Nat := (wrap32 a + UINT32_MOD - wrap32 b) % UINT32_MOD

/-! ## `include/kernel/mm.h` -/

/-- The macro `IS_PAGE_ALIGNED(B)`: `((B) & (PAGESIZE - 1)) == 0`. -/
def IS_PAGE_ALIGNED (PAGESIZE B : Nat) : Bool := (B &&& sub32 PAGESIZE 1) == 0

/-- The macro `TRUNC_PAGE(B)`: `(B) & ~(PAGESIZE - 1)`. -/
def TRUNC_PAGE (PAGESIZE B : Nat) : Nat := B &&& not32 (sub32 PAGESIZE 1)

/-- The macro `ROUND_PAGE(B)`:
`IS_PAGE_ALIGNED(B) ? (B) : (TRUNC_PAGE(B) + PAGESIZE)`. -/
def ROUND_PAGE (PAGESIZE B : Nat) : Nat :=
  if IS_PAGE_ALIGNED PAGESIZE B then B else wrap32 (TRUNC_PAGE PAGESIZE B + PAGESIZE)

/-- Modelled from the spec: no translated file defines the macro `ROUND_UP`
used by `_pmap_kernel_init`; the specification says the initializer rounds
each extent "up to a page boundary", which is what `ROUND_PAGE` computes. -/
def ROUND_UP (PAGESIZE B : Nat) : Nat := ROUND_PAGE PAGESIZE B

/-! ## `kernel/pmap.c`: constants and macros -/

/-- A page directory has 4096 page directory entries. -/
def PGDNENTRIES : Nat := 4096

/-- A page table has 256 page table entries. -/
def PGTNENTRIES : Nat := 256

/-- The macro `PGD_GET_INDEX(B)`: `((B) & 0xFFF00000) >> 20`. -/
def PGD_GET_INDEX (B : Nat) : Nat := (B &&& 0xFFF00000) >>> 20

/-- The macro `PGT_GET_INDEX(B)`: `((B) & 0x000FF000) >> 12`. -/
def PGT_GET_INDEX (B : Nat) : Nat := (B &&& 0x000FF000) >>> 12

/-- Small-page tag of a leaf entry. -/
def PTE_PAGE_BIT : Nat := 0x2
/-- Not-global bit. -/
def PTE_NG_BIT : Nat := 0x800
/-- Shareability bit. -/
def PTE_S_BIT : Nat := 0x400
/-- Accessed flag. -/
def PTE_AP0_BIT : Nat := 0x10
/-- User-mode access. -/
def PTE_AP1_BIT : Nat := 0x20
/-- Write access disabled. -/
def PTE_AP2_BIT : Nat := 0x200
/-- Execute-never bit. -/
def PTE_XN_BIT : Nat := 0x1
/-- Shareability domain. -/
def PTE_TEX0_BIT : Nat := 0x40
/-- Cacheability combination 0. -/
def PTE_CB0 : Nat := 0x0
/-- Cacheability combination 1. -/
def PTE_CB1 : Nat := 0x4
/-- Cacheability combination 2. -/
def PTE_CB2 : Nat := 0x8
/-- Cacheability combination 3. -/
def PTE_CB3 : Nat := 0xC

/-- The macro `PTE_CREATE(addr, bits)`: `PTE_PAGE_BIT | (addr) | (bits)`. -/
def PTE_CREATE (addr bits : Nat) : Nat := PTE_PAGE_BIT ||| addr ||| bits

/-- The macro `PTE_SET_BIT(entry, bit)`: `(entry) |= (bit)`. -/
def PTE_SET_BIT (entry bit : Nat) : Nat := entry ||| bit

/-- The macro `PTE_CLEAR_BIT(entry, bit)`: `(entry) &= ~(bit)`. -/
def PTE_CLEAR_BIT (entry bit : Nat) : Nat := entry &&& not32 bit

/-- Union of the named control bits of a leaf entry:
`NG | S | AP2 | TEX0 | AP1 | AP0 | CB3 | XN`. -/
def PTE_CONTROL_MASK : Nat :=
  PTE_NG_BIT ||| PTE_S_BIT ||| PTE_AP2_BIT ||| PTE_TEX0_BIT ||| PTE_AP1_BIT |||
    PTE_AP0_BIT ||| PTE_CB3 ||| PTE_XN_BIT

/-- Frame bits of a leaf entry (upper 20 bits). -/
def PTE_FRAME_MASK : Nat := 0xFFFFF000

/-- Size in bytes of a `pgt_t` (256 entries of 4 bytes). -/
def sizeof_pgt_t : Nat := PGTNENTRIES * 4

/-- Size in bytes of a `struct pgt_entry` on the 32-bit target
(two pointers and one `uint32_t`). -/
def sizeof_pgt_entry_t : Nat := 12

/-! ## `kernel/pmap.c`: state -/

/-- The record `struct pgt_entry`; pointers are addresses, `NULL` is `0`. -/
structure pgt_entry where
  pgt : Nat
  next : Nat
  offset : Nat
deriving DecidableEq, Repr

/-- The two fields of `pmap_t` that `pmap.c` assigns. -/
structure pmap_t where
  pgd : Nat
  pgt_entry_head : Nat
deriving DecidableEq, Repr

/-- Values fixed by the linker script and the boot code: the addresses of the
linker symbols and `PAGESIZE`. -/
structure BootLayout where
  PAGESIZE : Nat
  __pgd_virtual_start : Nat
  __pgt_virtual_start : Nat
  __pgt_physical_start : Nat
  __pgt_num : Nat
deriving DecidableEq, Repr

/-- Mutable state touched by `pmap.c`.

* `pte t s` is the content of `pgts[t].pte[s]`, the second-level tables
  starting at `__pgt_virtual_start`;
* `mem a` is the byte at address `a`;
* `recs a` is the `struct pgt_entry` stored at address `a`;
* `placement_addr` is the function-static cursor of `pmap_steal_memory`. -/
structure PmapState where
  kernel_pend : Nat
  kernel_vend : Nat
  placement_addr : Nat
  kernel_pmap : pmap_t
  pte : Nat → Nat → Nat
  mem : Nat → Nat
  recs : Nat → pgt_entry

/-- Assignment `pgts[t].pte[s] = entry`. -/
def pte_store (pte : Nat → Nat → Nat) (t s entry : Nat) : Nat → Nat → Nat :=
  fun t1 s1 => if t1 = t ∧ s1 = s then entry else pte t1 s1

/-- Assignment of a whole `struct pgt_entry` at address `a`. -/
def rec_store (recs : Nat → pgt_entry) (a : Nat) (r : pgt_entry) : Nat → pgt_entry :=
  fun b => if b = a then r else recs b

/-- Modelled from the spec: `memset` comes from the kernel's string library,
which is not among the translated files; the specification says the allocator
"zeroes exactly the requested byte range starting at the old cursor". The
bytes `s .. s + n - 1` receive the value `c`, every other byte is kept. -/
def memset (mem : Nat → Nat) (s c n : Nat) : Nat → Nat :=
  fun a => if s ≤ a ∧ a < s + n then c % 256 else mem a

/-! ## `kernel/pmap.c`: `pmap_steal_memory` -/

/-- The loop
`for(; kernel_vend < end; kernel_vend+=PAGESIZE, kernel_pend+=PAGESIZE)` of
`pmap_steal_memory`. One unit of fuel pays for one iteration; `none` means the
fuel ran out while `kernel_vend < end` still held. -/
def steal_map_loop (L : BootLayout) (end_ : Nat) : Nat → PmapState → Option PmapState
  | 0, st => if st.kernel_vend < end_ then none else some st
  | fuel + 1, st =>
    if st.kernel_vend < end_ then
      let pgt_n := sub32 PGDNENTRIES L.__pgt_num
      let entry := PTE_CREATE st.kernel_pend (PTE_S_BIT ||| PTE_TEX0_BIT ||| PTE_CB3)
      let st1 := { st with
        pte := pte_store st.pte (sub32 (PGD_GET_INDEX st.kernel_vend) pgt_n)
          (PGT_GET_INDEX st.kernel_vend) entry }
      steal_map_loop L end_ fuel { st1 with
        kernel_vend := wrap32 (st1.kernel_vend + L.PAGESIZE)
        kernel_pend := wrap32 (st1.kernel_pend + L.PAGESIZE) }
    else some st

/-- The function `pmap_steal_memory(size)`; returns the new state and the
returned address, or `none` when the mapping loop is still running after
`fuel` iterations. -/
def pmap_steal_memory (L : BootLayout) (fuel : Nat) (st : PmapState) (size : Nat) :
    Option (PmapState × Nat) :=
  let st0 := { st with
    placement_addr := if st.placement_addr = 0 then st.kernel_vend else st.placement_addr }
  let start := st0.placement_addr
  let end_ := wrap32 (st0.placement_addr + size)
  let grown := if end_ ≥ st0.kernel_vend then steal_map_loop L end_ fuel st0 else some st0
  match grown with
  | none => none
  | some st1 =>
    some ({ st1 with
      mem := memset st1.mem st1.placement_addr 0x0 size
      placement_addr := end_ }, start)

/-- The cursor a call of `pmap_steal_memory` works with: the static
`placement_addr`, or `kernel_vend` while the static is still `0`. -/
def cursor (st : PmapState) : Nat :=
  if st.placement_addr = 0 then st.kernel_vend else st.placement_addr

/-- A sequence of `pmap_steal_memory` calls with the given sizes, collecting
the returned addresses in call order. -/
def steal_seq (L : BootLayout) (fuel : Nat) : PmapState → List Nat → Option (PmapState × List Nat)
  | st, [] => some (st, [])
  | st, s :: ss =>
    match pmap_steal_memory L fuel st s with
    | none => none
    | some (st1, p) =>
      match steal_seq L fuel st1 ss with
      | none => none
      | some (st2, ps) => some (st2, p :: ps)

/-! ## `kernel/pmap.c`: `_pmap_kernel_init` -/

/-- The value `_pmap_kernel_init` assigns to `kernel_vend`:
`ROUND_UP((vaddr_t)(&__pgt_virtual_start) + sizeof(pgt_t) * (vaddr_t)(&__pgt_num))`. -/
def init_vend (L : BootLayout) : Nat :=
  ROUND_UP L.PAGESIZE (wrap32 (L.__pgt_virtual_start + wrap32 (sizeof_pgt_t * L.__pgt_num)))

/-- The value `_pmap_kernel_init` assigns to `kernel_pend`:
`ROUND_UP((paddr_t)(&__pgt_physical_start) + sizeof(pgt_t) * (paddr_t)(&__pgt_num))`. -/
def init_pend (L : BootLayout) : Nat :=
  ROUND_UP L.PAGESIZE (wrap32 (L.__pgt_physical_start + wrap32 (sizeof_pgt_t * L.__pgt_num)))

/-- Body of the loop `for(i = 0; i < n_pgt; i++)` of `_pmap_kernel_init`. -/
def init_entry (L : BootLayout) (pentries n_pgt : Nat) (st : PmapState) (i : Nat) : PmapState :=
  { st with
    recs := rec_store st.recs (wrap32 (pentries + sizeof_pgt_entry_t * i))
      { pgt := wrap32 (L.__pgt_virtual_start + sizeof_pgt_t * i)
        next := if i + 1 < n_pgt then wrap32 (pentries + sizeof_pgt_entry_t * (i + 1)) else 0
        offset := wrap32 (sub32 PGDNENTRIES n_pgt + i) } }

/-- The function `_pmap_kernel_init()`. -/
def _pmap_kernel_init (L : BootLayout) (fuel : Nat) (st : PmapState) : Option PmapState :=
  let st1 := { st with
    kernel_vend := init_vend L
    kernel_pend := init_pend L }
  let st2 := { st1 with kernel_pmap := { st1.kernel_pmap with pgd := L.__pgd_virtual_start } }
  let n_pgt := wrap32 L.__pgt_num
  match pmap_steal_memory L fuel st2 (wrap32 (sizeof_pgt_entry_t * n_pgt)) with
  | none => none
  | some (st3, pentries) =>
    let st4 := { st3 with
      kernel_pmap := { st3.kernel_pmap with pgt_entry_head := pentries } }
    some ((List.range n_pgt).foldl (init_entry L pentries n_pgt) st4)

/-- Specification side of the bookkeeping list: the record expected at
position `i` of a list of `N` records starting at address `head`. It
references the `i`-th second-level table, links to the record at position
`i + 1` (`NULL` for the last one) and carries the directory slot
`4096 - N + i`. -/
def spec_entry (L : BootLayout) (head i : Nat) : pgt_entry :=
  { pgt := L.__pgt_virtual_start + 1024 * i
    next := if i + 1 < L.__pgt_num then head + 12 * (i + 1) else 0
    offset := 4096 - L.__pgt_num + i }

/-- Traversal of the list of `struct pgt_entry` records from the address
`p` along the `next` links, stopping at `NULL`; at most `fuel` records. -/
def walk_entries (recs : Nat → pgt_entry) : Nat → Nat → List pgt_entry
  | 0, _ => []
  | fuel + 1, p => if p = 0 then [] else recs p :: walk_entries recs fuel (recs p).next

/-! ## `kernel/spinlock.c` -/

/-- Bit 0 is the lock value: 0 for unlocked, 1 for locked. -/
def SPIN_LOCK : Nat := 0x1
/-- Bit 1 is the status of interrupts: 1 for enabled, 0 for disabled. -/
def SPIN_ENABLED : Nat := 0x2
/-- Bit 2 is the lightswitch used by readlock and writelock. -/
def SPIN_LIGHTSWITCH : Nat := 0x4

/-- The macro `GET_READLOCK_COUNT(B)`: `(*B) >> 3`. -/
def GET_READLOCK_COUNT (w : Nat) : Nat := w >>> 3

/-- The macro `SET_READLOCK_COUNT(B, val)`: `(*B) |= ((val) << 3)`; the result
is the new lock word. -/
def SET_READLOCK_COUNT (w val : Nat) : Nat := w ||| wrap32 (val <<< 3)

/-- The macro `GET_ENABLED_BIT(B)`: `(*B) & SPIN_ENABLED`. -/
def GET_ENABLED_BIT (w : Nat) : Nat := w &&& SPIN_ENABLED

/-- The macro `SET_ENABLED_BIT(B, val)`: `(*B) |= (val << 1)`; the result is
the new lock word. -/
def SET_ENABLED_BIT (w val : Nat) : Nat := w ||| wrap32 (val <<< 1)

/-- Ways in which a spinlock operation fails to return normally. -/
inductive Fault where
  /-- A `kassert` condition was false. -/
  | assertion
  /-- The busy-wait loop was still spinning when the fuel ran out. -/
  | spinning
deriving DecidableEq, Repr

/-- The lock word together with the interrupt-enable flag of the calling core. -/
structure Cpu where
  irq_enabled : Bool
  lock : Nat
deriving DecidableEq, Repr

/-- Modelled from the spec: `atomic_test_and_set_bit` lives in
`kernel/atomic.h`, not among the translated files; the specification describes
it as "test-and-set on a given bit mask of a lock word (returns prior state of
the tested bits)". The result is the new lock word and the returned value. -/
def atomic_test_and_set_bit (w bits : Nat) : Nat × Nat := (w ||| bits, w &&& bits)

/-- Modelled from the spec: `kassert` lives in `kernel/kassert.h`, not among
the translated files; the specification describes it as "a fatal check that
must halt or otherwise prevent continued execution when a stated invariant is
false". -/
def kassert (cond : Nat) : Except Fault Unit :=
  if cond ≠ 0 then .ok () else .error Fault.assertion

/-- Modelled from the spec: `interrupts_enabled` lives in
`kernel/interrupts.h`, not among the translated files; the specification
describes it as "query whether interrupts are currently enabled on the calling
core". -/
def interrupts_enabled (c : Cpu) : Bool := c.irq_enabled

/-- Modelled from the spec: `interrupts_disable`, the "disable" half of the
interrupt control primitives of `kernel/interrupts.h`. -/
def interrupts_disable (c : Cpu) : Cpu := { c with irq_enabled := false }

/-- Modelled from the spec: `interrupts_enable`, the "enable" half of the
interrupt control primitives of `kernel/interrupts.h`. -/
def interrupts_enable (c : Cpu) : Cpu := { c with irq_enabled := true }

/-- The function `_spin_lock(lock, bits)` run by one context on its own: each
unit of fuel pays for one `atomic_test_and_set_bit`; the barrier has no effect
on the lock word. -/
def _spin_lock : Nat → Nat → Nat → Except Fault Nat
  | 0, _, _ => .error Fault.spinning
  | fuel + 1, w, bits =>
    let r := atomic_test_and_set_bit w bits
    if r.2 ≠ 0 then _spin_lock fuel r.1 bits else .ok r.1

/-- The function `_spin_unlock(lock, bits)`: `*lock &= ~(bits)` between two
barriers. -/
def _spin_unlock (w bits : Nat) : Nat := w &&& not32 bits

/-- The function `spin_init(lock)`. Its body is the single statement
`lock = 0;`, an assignment to the pointer parameter. `heap a` is the lock word
stored at address `a`; the result is the heap after the call together with the
final value of the parameter `lock`. -/
def spin_init (heap : Nat → Nat) (_lock : Nat) : (Nat → Nat) × Nat :=
  (heap, 0)

/-- The function `spin_lock(lock)`. -/
def spin_lock (fuel w : Nat) : Except Fault Nat := _spin_lock fuel w SPIN_LOCK

/-- The function `spin_unlock(lock)`. -/
def spin_unlock (w : Nat) : Except Fault Nat := do
  kassert (w &&& SPIN_LOCK)
  pure (_spin_unlock w (SPIN_LOCK ||| SPIN_ENABLED))

/-- The function `spin_trylock(lock)`: the new lock word and the returned
`bool`. -/
def spin_trylock (w : Nat) : Nat × Bool :=
  let r := atomic_test_and_set_bit w SPIN_LOCK
  (r.1, r.2 == 0)

/-- The function `spin_irqlock(lock)`. -/
def spin_irqlock (fuel : Nat) (c : Cpu) : Except Fault Cpu := do
  let _enabled := interrupts_enabled c
  let c1 := interrupts_disable c
  let w ← spin_lock fuel c1.lock
  pure { c1 with lock := SET_ENABLED_BIT w (if _enabled then 1 else 0) }

/-- The function `spin_irqunlock(lock)`. -/
def spin_irqunlock (c : Cpu) : Except Fault Cpu := do
  let _enabled := GET_ENABLED_BIT c.lock != 0
  let w ← spin_unlock c.lock
  let c1 := { c with lock := w }
  pure (if _enabled then interrupts_enable c1 else c1)

/-- The function `spin_readlock(lock)`. -/
def spin_readlock (fuel w : Nat) : Except Fault Nat := do
  let w1 ← _spin_lock fuel w SPIN_LIGHTSWITCH
  let count := wrap32 (GET_READLOCK_COUNT w1 + 1)
  let w2 := SET_READLOCK_COUNT w1 count
  let w3 ← if count = 1 then spin_lock fuel w2 else pure w2
  pure (_spin_unlock w3 SPIN_LIGHTSWITCH)

/-- The function `spin_readunlock(lock)`. Its first statement is
`_spin_unlock(lock, SPIN_LIGHTSWITCH)`, as in the source. -/
def spin_readunlock (w : Nat) : Except Fault Nat := do
  let w1 := _spin_unlock w SPIN_LIGHTSWITCH
  let count := sub32 (GET_READLOCK_COUNT w1) 1
  let w2 := SET_READLOCK_COUNT w1 count
  let w3 ← if count = 0 then spin_unlock w2 else pure w2
  pure (_spin_unlock w3 SPIN_LIGHTSWITCH)

/-- The function `spin_writelock(lock)`. -/
def spin_writelock (fuel w : Nat) : Except Fault Nat := spin_lock fuel w

/-- The function `spin_writeunlock(lock)`. -/
def spin_writeunlock (w : Nat) : Except Fault Nat := spin_unlock w

/-- The lock words seen after each of `n` successive `spin_readlock` calls,
starting from `w` (latest first); a fault of any call ends the run. -/
def readlock_n (fuel : Nat) : Nat → Nat → Except Fault (List Nat)
  | 0, _ => .ok []
  | n + 1, w =>
    match spin_readlock fuel w with
    | .error e => .error e
    | .ok w1 =>
      match readlock_n fuel n w1 with
      | .error e => .error e
      | .ok ws => .ok (w1 :: ws)

/-- The lock words seen after each of `n` successive `spin_readunlock` calls,
starting from `w`; a fault of any call ends the run. -/
def readunlock_n : Nat → Nat → Except Fault (List Nat)
  | 0, _ => .ok []
  | n + 1, w =>
    match spin_readunlock w with
    | .error e => .error e
    | .ok w1 =>
      match readunlock_n n w1 with
      | .error e => .error e
      | .ok ws => .ok (w1 :: ws)

/-- States in which `pmap_steal_memory` is called according to its contract:
`_pmap_kernel_init` has returned, and any number of `pmap_steal_memory` calls
have returned since. -/
inductive AfterInit (L : BootLayout) : PmapState → Prop where
  /-- The state in which `_pmap_kernel_init` returns. -/
  | init (fuel : Nat) (st0 st : PmapState) :
      _pmap_kernel_init L fuel st0 = some st → AfterInit L st
  /-- The state in which a later `pmap_steal_memory` call returns. -/
  | steal (fuel size p : Nat) (st st1 : PmapState) :
      AfterInit L st → pmap_steal_memory L fuel st size = some (st1, p) → AfterInit L st1

/-! ## `platform/versatilepb/irq.c` -/

/-- The loop `for(count = 0; count < 32; count++) { if(status & (1 << count))
break; }` of `irq_get`, entered with the given value of `count`; the result is
the value of `count` after the loop. One unit of fuel pays for one test of the
loop condition. -/
def irq_scan (status : Nat) : Nat → Nat → Nat
  | 0, count => count
  | fuel + 1, count =>
    if count < 32 then
      if status &&& wrap32 (1 <<< count) ≠ 0 then count
      else irq_scan status fuel (count + 1)
    else count

/-- The loop `for(uint32_t i = 0; i < 32; i++, count++) { if(status & (1 << i))
break; }` of `irq_get`, entered with the given values of `i` and `count`; the
result is the value of `count` after the loop. -/
def irq_scan_sic (status : Nat) : Nat → Nat → Nat → Nat
  | 0, _, count => count
  | fuel + 1, i, count =>
    if i < 32 then
      if status &&& wrap32 (1 <<< i) ≠ 0 then count
      else irq_scan_sic status fuel (i + 1) (count + 1)
    else count

/-- The function `irq_get()`. The arguments `vic` and `sic` are the values read
by `_vic_status()` and `_sic_status()`; the constant `IRQ_NONE` comes from
`platform/irq.h`, which is not among the translated files, and is a
parameter. Both loops run at most 33 tests of their condition. -/
def irq_get (IRQ_NONE vic sic : Nat) : Nat :=
  let count := irq_scan vic 33 0
  if count < 31 then count
  else if count > 31 then IRQ_NONE
  else
    let count1 := irq_scan_sic sic 33 0 (count + 1)
    if count1 ≥ 64 then IRQ_NONE else count1

/-! ## Concrete boot layout used in the examples -/

/-- A layout with sixteen pre-allocated second-level tables: the kernel owns
the last 16 MiB of the address space, the table array sits at
`0xFF104000` (physical `0x00104000`), pages are 4 KiB. -/
def layout16 : BootLayout :=
  { PAGESIZE := 4096
    __pgd_virtual_start := 0xFF100000
    __pgt_virtual_start := 0xFF104000
    __pgt_physical_start := 0x00104000
    __pgt_num := 16 }

/-- State at kernel entry: zero-initialised globals, empty second-level
tables, memory filled with the byte `0xAA`. -/
def boot_state : PmapState :=
  { kernel_pend := 0
    kernel_vend := 0
    placement_addr := 0
    kernel_pmap := { pgd := 0, pgt_entry_head := 0 }
    pte := fun _ _ => 0
    mem := fun _ => 0xAA
    recs := fun _ => { pgt := 0, next := 0, offset := 0 } }

/-- State of `layout16` once `_pmap_kernel_init` has returned: the sixteen
records occupy `0xFF108000 .. 0xFF1080BF`, one page has been mapped for them. -/
def inited_state : PmapState :=
  { boot_state with
    kernel_pend := 0x00109000
    kernel_vend := 0xFF109000
    placement_addr := 0xFF1080C0
    kernel_pmap := { pgd := 0xFF100000, pgt_entry_head := 0xFF108000 } }

/-! # Theorems -/

/-! ## Bit-level helpers -/

theorem eq_of_testBit32 {x y : Nat} (hx : x < 2 ^ 32) (hy : y < 2 ^ 32)
    (h : ∀ i, i < 32 → x.testBit i = y.testBit i) : x = y := by
  apply Nat.eq_of_testBit_eq
  intro i
  by_cases hi : i < 32
  · exact h i hi
  · have h32 : 2 ^ 32 ≤ 2 ^ i := Nat.pow_le_pow_right (by decide) (by omega)
    rw [Nat.testBit_lt_two_pow (lt_of_lt_of_le hx h32),
      Nat.testBit_lt_two_pow (lt_of_lt_of_le hy h32)]

theorem and_bit_false {x m : Nat} (h : x &&& m = 0) (i : Nat) :
    (x.testBit i && m.testBit i) = false := by
  rw [← Nat.testBit_and, h, Nat.zero_testBit]

theorem and_mask_lt (x : Nat) {m b : Nat} (hm : m < b) : x &&& m < b :=
  lt_of_le_of_lt Nat.and_le_right hm

/-! ## Page-table entry encoder -/

/-- C1: for a 32-bit physical address `A` with its low 12 bits clear and a
32-bit attribute set `P` made only of named control bits (`P & ~0xE7D = 0`,
where `0xE7D` is the union of the named bits), `PTE_CREATE(A, P)` masked with
`0xFFFFF000` is `A`, masked with `0xE7D` is `P`, and has the small-page tag
`0x2` set. -/
theorem pte_create_roundtrip (A P : Nat) (hA : A < 2 ^ 32) (hP : P < 2 ^ 32)
    (halign : A &&& 0xFFF = 0) (hctl : P &&& not32 0xE7D = 0) :
    PTE_CONTROL_MASK = 0xE7D ∧
    PTE_CREATE A P &&& 0xFFFFF000 = A ∧
    PTE_CREATE A P &&& 0xE7D = P ∧
    PTE_CREATE A P &&& 0x2 = 0x2 := by
  have key : ∀ i, i < 32 → ∀ a p : Bool, (a && Nat.testBit 0xFFF i) = false →
      (p && Nat.testBit (not32 0xE7D) i) = false →
      ((Nat.testBit PTE_PAGE_BIT i || a || p) && Nat.testBit 0xFFFFF000 i) = a ∧
      ((Nat.testBit PTE_PAGE_BIT i || a || p) && Nat.testBit 0xE7D i) = p ∧
      ((Nat.testBit PTE_PAGE_BIT i || a || p) && Nat.testBit 0x2 i) = Nat.testBit 0x2 i := by
    decide
  refine ⟨by decide, ?_, ?_, ?_⟩
  · refine eq_of_testBit32 (and_mask_lt _ (by decide)) hA ?_
    intro i hi
    simp only [Nat.testBit_and, Nat.testBit_or, PTE_CREATE]
    exact (key i hi _ _ (and_bit_false halign i) (and_bit_false hctl i)).1
  · refine eq_of_testBit32 (and_mask_lt _ (by decide)) hP ?_
    intro i hi
    simp only [Nat.testBit_and, Nat.testBit_or, PTE_CREATE]
    exact (key i hi _ _ (and_bit_false halign i) (and_bit_false hctl i)).2.1
  · refine eq_of_testBit32 (and_mask_lt _ (by decide)) (by decide) ?_
    intro i hi
    simp only [Nat.testBit_and, Nat.testBit_or, PTE_CREATE]
    exact (key i hi _ _ (and_bit_false halign i) (and_bit_false hctl i)).2.2

/-- Witness for C1: the frame `0x00108000` with the attributes
`S | TEX0 | CB3` used by the bootstrap allocator. -/
theorem pte_create_roundtrip_witness :
    PTE_CONTROL_MASK = 0xE7D ∧
    PTE_CREATE 0x00108000 0x44C &&& 0xFFFFF000 = 0x00108000 ∧
    PTE_CREATE 0x00108000 0x44C &&& 0xE7D = 0x44C ∧
    PTE_CREATE 0x00108000 0x44C &&& 0x2 = 0x2 :=
  pte_create_roundtrip 0x00108000 0x44C (by decide) (by decide) (by decide) (by decide)

/-! ## Bootstrap allocator: the mapping loop -/

/-- With a positive page size and an end address at least one page below
`2 ^ 32`, the mapping loop stops after at most `end_ - kernel_vend`
iterations: both extents have advanced by the same number `k` of pages, the
virtual end has reached `end_`, overshoots it by less than a page, and nothing
but the page tables and the two extents has changed. -/
theorem steal_map_loop_run (L : BootLayout) (end_ : Nat) (hPS : 0 < L.PAGESIZE)
    (hend : end_ + L.PAGESIZE ≤ UINT32_MOD) :
    ∀ (fuel : Nat) (st : PmapState), end_ - st.kernel_vend ≤ fuel →
      ∃ st1 k, steal_map_loop L end_ fuel st = some st1 ∧
        st1.kernel_vend = st.kernel_vend + k * L.PAGESIZE ∧
        (st.kernel_pend + k * L.PAGESIZE < UINT32_MOD →
          st1.kernel_pend = st.kernel_pend + k * L.PAGESIZE) ∧
        end_ ≤ st1.kernel_vend ∧
        (0 < k → st1.kernel_vend < end_ + L.PAGESIZE) ∧
        (end_ ≤ st.kernel_vend → k = 0) ∧
        st1.placement_addr = st.placement_addr ∧ st1.mem = st.mem ∧
        st1.recs = st.recs ∧ st1.kernel_pmap = st.kernel_pmap := by
  intro fuel
  induction fuel with
  | zero =>
    intro st hf
    have hle : end_ ≤ st.kernel_vend := by omega
    exact ⟨st, 0, by simp [steal_map_loop, Nat.not_lt.mpr hle], by simp, by simp, hle,
      by simp, by simp, rfl, rfl, rfl, rfl⟩
  | succ n ih =>
    intro st hf
    by_cases hlt : st.kernel_vend < end_
    · have hv : wrap32 (st.kernel_vend + L.PAGESIZE) = st.kernel_vend + L.PAGESIZE := by
        unfold wrap32
        exact Nat.mod_eq_of_lt (by omega)
      obtain ⟨st1, k, hrun, hvend, hpend, hge, hover, -, hpl, hmem, hrecs, hpm⟩ :=
        ih { st with
          pte := pte_store st.pte
            (sub32 (PGD_GET_INDEX st.kernel_vend) (sub32 PGDNENTRIES L.__pgt_num))
            (PGT_GET_INDEX st.kernel_vend)
            (PTE_CREATE st.kernel_pend (PTE_S_BIT ||| PTE_TEX0_BIT ||| PTE_CB3))
          kernel_vend := wrap32 (st.kernel_vend + L.PAGESIZE)
          kernel_pend := wrap32 (st.kernel_pend + L.PAGESIZE) }
          (by simp only [hv]; omega)
      simp only [hv] at hvend
      simp only at hpend hpl hmem hrecs hpm
      refine ⟨st1, k + 1, ?_, ?_, ?_, hge, ?_, ?_, hpl, hmem, hrecs, hpm⟩
      · simp only [steal_map_loop, hlt, if_true]
        exact hrun
      · rw [hvend, Nat.succ_mul]; omega
      · intro hno
        rw [Nat.succ_mul] at hno
        have hp : wrap32 (st.kernel_pend + L.PAGESIZE) = st.kernel_pend + L.PAGESIZE := by
          unfold wrap32
          exact Nat.mod_eq_of_lt (by omega)
        rw [hp] at hpend
        rw [hpend (by omega), Nat.succ_mul]; omega
      · intro _
        rcases Nat.eq_zero_or_pos k with hk | hk
        · subst hk
          rw [hvend]; omega
        · exact hover hk
      · intro h; omega
    · have hle : end_ ≤ st.kernel_vend := Nat.le_of_not_lt hlt
      exact ⟨st, 0, by simp [steal_map_loop, hlt], by simp, by simp, hle,
        by simp, by simp, rfl, rfl, rfl, rfl⟩

/-! ## Bootstrap allocator: one call -/

theorem cursor_eq_placement (st : PmapState)
    (h : st.placement_addr = 0 → st.kernel_vend = 0) : cursor st = st.placement_addr := by
  unfold cursor
  split
  · rename_i h0
    rw [h h0, h0]
  · rfl

theorem vend_eq_zero_of_cursor (st : PmapState) (h : cursor st = 0) : st.kernel_vend = 0 := by
  unfold cursor at h
  split at h
  · exact h
  · rename_i h0
    exact absurd h h0

/-- One call of `pmap_steal_memory` whose end address stays at least one page
below `2 ^ 32`: with enough fuel for the mapping loop the call returns the
cursor, moves the cursor past the request, advances both extents by the same
number `k` of pages, and zeroes the requested bytes. -/
theorem pmap_steal_memory_run (L : BootLayout) (st : PmapState) (size fuel : Nat)
    (hPS : 0 < L.PAGESIZE) (hnw : cursor st + size + L.PAGESIZE ≤ UINT32_MOD)
    (hfuel : cursor st + size - st.kernel_vend ≤ fuel) :
    ∃ st1 k, pmap_steal_memory L fuel st size = some (st1, cursor st) ∧
      st1.placement_addr = cursor st + size ∧
      cursor st1 = cursor st + size ∧
      st1.kernel_vend = st.kernel_vend + k * L.PAGESIZE ∧
      (st.kernel_pend + k * L.PAGESIZE < UINT32_MOD →
        st1.kernel_pend = st.kernel_pend + k * L.PAGESIZE) ∧
      cursor st + size ≤ st1.kernel_vend ∧
      (0 < k → st1.kernel_vend < cursor st + size + L.PAGESIZE) ∧
      (cursor st + size ≤ st.kernel_vend → k = 0) ∧
      st1.mem = memset st.mem (cursor st) 0 size ∧
      st1.recs = st.recs ∧ st1.kernel_pmap = st.kernel_pmap := by
  have hw : wrap32 (cursor st + size) = cursor st + size := by
    unfold wrap32
    exact Nat.mod_eq_of_lt (by omega)
  by_cases hge : st.kernel_vend ≤ cursor st + size
  · obtain ⟨st1, k, hrun, hvend, hpend, hreach, hover, hzero, hpl, hmem, hrecs, hpm⟩ :=
      steal_map_loop_run L (cursor st + size) hPS hnw fuel
        { st with placement_addr := cursor st } hfuel
    simp only at hvend hpend hover hzero hpl hmem hrecs hpm
    refine ⟨{ st1 with
        mem := memset st1.mem st1.placement_addr 0x0 size
        placement_addr := cursor st + size }, k, ?_, rfl, ?_, hvend, hpend, hreach, hover,
      hzero, ?_, hrecs, hpm⟩
    · have hc : (if st.placement_addr = 0 then st.kernel_vend else st.placement_addr) =
          cursor st := rfl
      unfold pmap_steal_memory
      simp only [hc, hw, ge_iff_le, hge, if_true, hrun]
    · refine (cursor_eq_placement _ ?_).trans rfl
      intro h0
      have h0c : cursor st + size = 0 := h0
      have hv0 : st.kernel_vend = 0 := vend_eq_zero_of_cursor st (by omega)
      have hk : k = 0 := hzero (by omega)
      show st1.kernel_vend = 0
      rw [hvend, hk, hv0, Nat.zero_mul]
    · show memset st1.mem st1.placement_addr 0x0 size = memset st.mem (cursor st) 0 size
      rw [hmem, hpl]
  · have hlt : cursor st + size < st.kernel_vend := Nat.lt_of_not_le hge
    refine ⟨{ st with
        mem := memset st.mem (cursor st) 0x0 size
        placement_addr := cursor st + size }, 0, ?_, rfl, ?_, by simp, by simp,
      Nat.le_of_lt hlt, by simp, by simp, rfl, rfl, rfl⟩
    · have hc : (if st.placement_addr = 0 then st.kernel_vend else st.placement_addr) =
          cursor st := rfl
      unfold pmap_steal_memory
      simp only [hc, hw, ge_iff_le, hge, if_false]
    · refine (cursor_eq_placement _ ?_).trans rfl
      intro h0
      have h0c : cursor st + size = 0 := h0
      exact vend_eq_zero_of_cursor st (by omega)

/-! ## Bootstrap allocator: claims -/

/-- C2: a call of `pmap_steal_memory` with `PAGESIZE = 4096`, page-aligned
`kernel_vend` and `kernel_pend` on entry and no 32-bit wrap-around (the end of
the request stays a page below `2 ^ 32`, the physical end stays below
`2 ^ 32`) returns, and advances `kernel_vend` and `kernel_pend` by the same
number `k` of pages, so `kernel_vend - kernel_pend` is the same after the call
as before it. -/
theorem steal_extents_lockstep (L : BootLayout) (st : PmapState) (size fuel : Nat)
    (hPS : L.PAGESIZE = 4096)
    (hv : st.kernel_vend % 4096 = 0) (hp : st.kernel_pend % 4096 = 0)
    (hnw : cursor st + size + 4096 ≤ 2 ^ 32)
    (hpnw : st.kernel_pend + (cursor st + size - st.kernel_vend) + 4096 ≤ 2 ^ 32)
    (hfuel : cursor st + size - st.kernel_vend ≤ fuel) :
    ∃ st1 p k, pmap_steal_memory L fuel st size = some (st1, p) ∧
      st1.kernel_vend = st.kernel_vend + k * 4096 ∧
      st1.kernel_pend = st.kernel_pend + k * 4096 ∧
      (st1.kernel_vend - st.kernel_vend) / 4096 = k ∧
      (st1.kernel_pend - st.kernel_pend) / 4096 = k ∧
      (st1.kernel_vend : Int) - st1.kernel_pend = (st.kernel_vend : Int) - st.kernel_pend := by
  obtain ⟨st1, k, hrun, -, -, hvend, hpend, -, hover, -, -, -, -⟩ :=
    pmap_steal_memory_run L st size fuel (by omega) (by simpa [UINT32_MOD, hPS] using hnw)
      hfuel
  rw [hPS] at hvend hpend hover
  have hpe : st1.kernel_pend = st.kernel_pend + k * 4096 := by
    apply hpend
    show st.kernel_pend + k * 4096 < 2 ^ 32
    rcases Nat.eq_zero_or_pos k with hk | hk
    · subst hk; omega
    · have := hover hk
      omega
  refine ⟨st1, cursor st, k, hrun, hvend, hpe, ?_, ?_, ?_⟩
  · rw [hvend]; omega
  · rw [hpe]; omega
  · rw [hvend, hpe]; push_cast; ring

/-- Witness for C2: after initialisation of `layout16`, a request of 5000
bytes maps one further page. -/
theorem steal_extents_lockstep_witness :
    ∃ st1 p k, pmap_steal_memory layout16 5000 inited_state 5000 = some (st1, p) ∧
      st1.kernel_vend = inited_state.kernel_vend + k * 4096 ∧
      st1.kernel_pend = inited_state.kernel_pend + k * 4096 ∧
      (st1.kernel_vend - inited_state.kernel_vend) / 4096 = k ∧
      (st1.kernel_pend - inited_state.kernel_pend) / 4096 = k ∧
      (st1.kernel_vend : Int) - st1.kernel_pend =
        (inited_state.kernel_vend : Int) - inited_state.kernel_pend :=
  steal_extents_lockstep layout16 inited_state 5000 5000 rfl (by decide) (by decide)
    (by decide) (by decide) (by decide)

/-- A run of `pmap_steal_memory` calls whose total stays a page below
`2 ^ 32`: every call returns, no returned address lies below the cursor the run
started with, and each request ends at or before every later returned
address. -/
theorem steal_seq_run (L : BootLayout) (hPS : 0 < L.PAGESIZE) :
    ∀ (sizes : List Nat) (st : PmapState) (fuel : Nat),
      cursor st + sizes.sum + L.PAGESIZE ≤ UINT32_MOD →
      cursor st + sizes.sum - st.kernel_vend ≤ fuel →
      ∃ st1 ps, steal_seq L fuel st sizes = some (st1, ps) ∧
        ps.length = sizes.length ∧ (∀ q ∈ ps, cursor st ≤ q) ∧
        List.Pairwise (fun a b : Nat × Nat => a.1 + a.2 ≤ b.1) (ps.zip sizes) := by
  intro sizes
  induction sizes with
  | nil =>
    intro st fuel _ _
    exact ⟨st, [], rfl, rfl, by simp, by simp⟩
  | cons s ss ih =>
    intro st fuel hnw hfuel
    rw [List.sum_cons] at hnw hfuel
    obtain ⟨st1, k, hcall, -, hcur, hvend, -, -, -, -, -, -, -⟩ :=
      pmap_steal_memory_run L st s fuel hPS (by omega) (by omega)
    obtain ⟨st2, ps, hrest, hlen, hlow, hpair⟩ :=
      ih st1 fuel (by omega) (by rw [hcur, hvend]; omega)
    refine ⟨st2, cursor st :: ps, ?_, by simp [hlen], ?_, ?_⟩
    · simp only [steal_seq, hcall, hrest]
    · intro q hq
      rcases List.mem_cons.mp hq with h | h
      · exact Nat.le_of_eq h.symm
      · have := hlow q h
        omega
    · rw [List.zip_cons_cons, List.pairwise_cons]
      refine ⟨?_, hpair⟩
      intro b hb
      have := hlow b.1 (List.of_mem_zip hb).1
      show cursor st + s ≤ b.1
      omega

/-- C3 as stated fails: after `_pmap_kernel_init` on `layout16`, the calls
`pmap_steal_memory(0)` and `pmap_steal_memory(16)` both return `0xFF1080C0`,
so the returned addresses are not strictly increasing. -/
theorem steal_seq_zero_size_repeats :
    (do
      let st ← _pmap_kernel_init layout16 1 boot_state
      let r ← steal_seq layout16 0 st [0, 16]
      pure r.2) = some [0xFF1080C0, 0xFF1080C0] ∧
    ¬ List.Pairwise (fun p q : Nat => p < q) [0xFF1080C0, 0xFF1080C0] := by
  decide

/-- C3 (amended): for every sequence of `pmap_steal_memory` calls with sizes
`s1..sn` whose total keeps the cursor a page below `2 ^ 32` (no 32-bit
wrap-around), every call returns and, for `i < j`, the returned addresses
satisfy `p_i ≤ p_j`, `p_i < p_j` when `s_i > 0`, and `p_i + s_i ≤ p_j`, so the
ranges `[p_i, p_i + s_i)` are pairwise non-overlapping. -/
theorem steal_seq_monotone_disjoint (L : BootLayout) (st : PmapState) (sizes : List Nat)
    (fuel : Nat) (hPS : 0 < L.PAGESIZE)
    (hnw : cursor st + sizes.sum + L.PAGESIZE ≤ 2 ^ 32)
    (hfuel : cursor st + sizes.sum - st.kernel_vend ≤ fuel) :
    ∃ st1 ps, steal_seq L fuel st sizes = some (st1, ps) ∧
      ps.length = sizes.length ∧
      List.Pairwise (fun a b : Nat × Nat =>
        a.1 ≤ b.1 ∧ (0 < a.2 → a.1 < b.1) ∧ a.1 + a.2 ≤ b.1) (ps.zip sizes) := by
  obtain ⟨st1, ps, hrun, hlen, -, hpair⟩ := steal_seq_run L hPS sizes st fuel hnw hfuel
  refine ⟨st1, ps, hrun, hlen, hpair.imp ?_⟩
  intro a b hab
  exact ⟨by omega, fun _ => by omega, hab⟩

/-- Witness for C3 (amended): three requests of 16, 0 and 5000 bytes after
initialisation of `layout16`. -/
theorem steal_seq_monotone_disjoint_witness :
    ∃ st1 ps, steal_seq layout16 5016 inited_state [16, 0, 5000] = some (st1, ps) ∧
      ps.length = [16, 0, 5000].length ∧
      List.Pairwise (fun a b : Nat × Nat =>
        a.1 ≤ b.1 ∧ (0 < a.2 → a.1 < b.1) ∧ a.1 + a.2 ≤ b.1) (ps.zip [16, 0, 5000]) :=
  steal_seq_monotone_disjoint layout16 inited_state [16, 0, 5000] 5016 (by decide)
    (by decide) (by decide)

/-- C4 as stated fails: after `_pmap_kernel_init` on `layout16` the cursor is
`0xFF1080C0`; `pmap_steal_memory(0xFFFFFFFF)` returns `0xFF1080C0` and leaves
the cursor at `0xFF1080BF`, which is not the returned value plus the size. -/
theorem steal_cursor_wraps :
    (do
      let st ← _pmap_kernel_init layout16 1 boot_state
      let r ← pmap_steal_memory layout16 0 st 0xFFFFFFFF
      pure (r.2, r.1.placement_addr)) = some (0xFF1080C0, 0xFF1080BF) ∧
    0xFF1080BF ≠ 0xFF1080C0 + 0xFFFFFFFF := by
  decide

/-- C4 (amended): for every requested size `s` that keeps the end of the
request a page below `2 ^ 32` (no 32-bit wrap-around, `PAGESIZE > 0`),
`pmap_steal_memory(s)` returns the value of the placement cursor on entry
(`kernel_vend` while the static cursor is still `0`), sets the cursor to that
value plus `s`, leaves every byte of `[returned, returned + s)` equal to zero
and changes no byte outside that range (nor any stored record); only
page-table entries are written besides. -/
theorem steal_returns_cursor_zeroed (L : BootLayout) (st : PmapState) (size fuel : Nat)
    (hPS : 0 < L.PAGESIZE) (hnw : cursor st + size + L.PAGESIZE ≤ 2 ^ 32)
    (hfuel : cursor st + size - st.kernel_vend ≤ fuel) :
    ∃ st1 p, pmap_steal_memory L fuel st size = some (st1, p) ∧
      p = (if st.placement_addr = 0 then st.kernel_vend else st.placement_addr) ∧
      st1.placement_addr = p + size ∧
      (∀ a, p ≤ a → a < p + size → st1.mem a = 0) ∧
      (∀ a, ¬ (p ≤ a ∧ a < p + size) → st1.mem a = st.mem a) ∧
      st1.recs = st.recs := by
  obtain ⟨st1, k, hcall, hpl, -, -, -, -, -, -, hmem, hrecs, -⟩ :=
    pmap_steal_memory_run L st size fuel hPS hnw hfuel
  refine ⟨st1, cursor st, hcall, rfl, hpl, ?_, ?_, hrecs⟩
  · intro a h1 h2
    rw [hmem]
    simp [memset, h1, h2]
  · intro a h
    rw [hmem]
    simp only [memset, h, if_false]

/-- Witness for C4 (amended): a request of 5000 bytes after initialisation of
`layout16`. -/
theorem steal_returns_cursor_zeroed_witness :
    ∃ st1 p, pmap_steal_memory layout16 5000 inited_state 5000 = some (st1, p) ∧
      p = (if inited_state.placement_addr = 0 then inited_state.kernel_vend
        else inited_state.placement_addr) ∧
      st1.placement_addr = p + 5000 ∧
      (∀ a, p ≤ a → a < p + 5000 → st1.mem a = 0) ∧
      (∀ a, ¬ (p ≤ a ∧ a < p + 5000) → st1.mem a = inited_state.mem a) ∧
      st1.recs = inited_state.recs :=
  steal_returns_cursor_zeroed layout16 inited_state 5000 5000 (by decide) (by decide)
    (by decide)

/-! ## Kernel-instance initialisation -/

theorem wrap32_of_lt {x : Nat} (h : x < 2 ^ 32) : wrap32 x = x := by
  unfold wrap32 UINT32_MOD
  exact Nat.mod_eq_of_lt h

/-- The record written by iteration `i` of the initialisation loop is the
expected one, as long as no address computation wraps. -/
theorem init_entry_recs (L : BootLayout) (head i : Nat) (st : PmapState)
    (hN : L.__pgt_num ≤ 4096) (hi : i < L.__pgt_num)
    (htab : L.__pgt_virtual_start + sizeof_pgt_t * L.__pgt_num ≤ 2 ^ 32)
    (hroom : head + 12 * L.__pgt_num < 2 ^ 32) :
    (init_entry L head L.__pgt_num st i).recs =
      rec_store st.recs (head + 12 * i) (spec_entry L head i) := by
  have h1 : wrap32 (head + sizeof_pgt_entry_t * i) = head + 12 * i :=
    wrap32_of_lt (by unfold sizeof_pgt_entry_t; omega)
  have h2 : wrap32 (L.__pgt_virtual_start + sizeof_pgt_t * i) =
      L.__pgt_virtual_start + 1024 * i := by
    have : sizeof_pgt_t = 1024 := by decide
    rw [this] at htab ⊢
    exact wrap32_of_lt (by omega)
  have h3 : wrap32 (sub32 PGDNENTRIES L.__pgt_num + i) = 4096 - L.__pgt_num + i := by
    unfold sub32 wrap32 UINT32_MOD PGDNENTRIES
    omega
  have h4 : (if i + 1 < L.__pgt_num then wrap32 (head + sizeof_pgt_entry_t * (i + 1)) else 0) =
      (if i + 1 < L.__pgt_num then head + 12 * (i + 1) else 0) := by
    split
    · exact wrap32_of_lt (by unfold sizeof_pgt_entry_t; omega)
    · rfl
  simp only [init_entry, h1, h2, h3, h4, spec_entry]

/-- After the first `n` iterations of the initialisation loop the first `n`
records are in place and `kernel_pmap` is untouched. -/
theorem init_loop_recs (L : BootLayout) (head : Nat) (st : PmapState)
    (hN : L.__pgt_num ≤ 4096)
    (htab : L.__pgt_virtual_start + sizeof_pgt_t * L.__pgt_num ≤ 2 ^ 32)
    (hroom : head + 12 * L.__pgt_num < 2 ^ 32) :
    ∀ n, n ≤ L.__pgt_num →
      ((List.range n).foldl (init_entry L head L.__pgt_num) st).kernel_pmap = st.kernel_pmap ∧
      ∀ i, i < n →
        ((List.range n).foldl (init_entry L head L.__pgt_num) st).recs (head + 12 * i) =
          spec_entry L head i := by
  intro n
  induction n with
  | zero =>
    intro _
    exact ⟨rfl, fun i hi => absurd hi (Nat.not_lt_zero i)⟩
  | succ n ih =>
    intro hn
    obtain ⟨hpm, hrec⟩ := ih (by omega)
    rw [List.range_succ, List.foldl_append, List.foldl_cons, List.foldl_nil]
    refine ⟨hpm, ?_⟩
    intro i hi
    rw [init_entry_recs L head n _ hN (by omega) htab hroom]
    unfold rec_store
    by_cases hin : i = n
    · subst hin
      simp
    · have hne : head + 12 * i ≠ head + 12 * n := by omega
      simp only [hne, if_false]
      exact hrec i (by omega)

/-- Following the `next` links from the record at position `i` visits the
records at positions `i, i + 1, .., N - 1` and then reaches `NULL`. -/
theorem walk_entries_from (L : BootLayout) (head : Nat) (recs : Nat → pgt_entry)
    (h0 : 0 < head)
    (hrec : ∀ i, i < L.__pgt_num → recs (head + 12 * i) = spec_entry L head i) :
    ∀ d i m, i + d = L.__pgt_num → d ≤ m →
      walk_entries recs m (if i < L.__pgt_num then head + 12 * i else 0) =
        (List.range' i d).map (spec_entry L head) := by
  intro d
  induction d with
  | zero =>
    intro i m hid _
    have : ¬ i < L.__pgt_num := by omega
    simp only [this, if_false, List.range'_zero, List.map_nil]
    cases m <;> simp [walk_entries]
  | succ d ih =>
    intro i m hid hm
    obtain ⟨m1, rfl⟩ : ∃ m1, m = m1 + 1 := ⟨m - 1, by omega⟩
    have hi : i < L.__pgt_num := by omega
    have hne : head + 12 * i ≠ 0 := by omega
    have hnext : (spec_entry L head i).next =
        (if i + 1 < L.__pgt_num then head + 12 * (i + 1) else 0) := rfl
    simp only [hi, if_true, walk_entries, hne, if_false, hrec i hi, hnext, List.range'_succ,
      List.map_cons]
    rw [ih (i + 1) m1 (by omega) (by omega)]

/-- C5: for every pre-allocated table count `N` with `1 ≤ N ≤ 4096`, on a
fresh boot (static cursor `0`) with a layout in which no address computation
wraps, `_pmap_kernel_init` returns and the list starting at
`kernel_pmap.pgt_entry_head` has exactly `N` records in table order: record
`i` references the `i`-th second-level table, has offset `4096 - N + i`, links
to record `i + 1`, and the last record links to `NULL`. -/
theorem kernel_init_entry_list (L : BootLayout) (st : PmapState) (fuel : Nat)
    (hN1 : 1 ≤ L.__pgt_num) (hN2 : L.__pgt_num ≤ 4096) (hPS : 0 < L.PAGESIZE)
    (hstatic : st.placement_addr = 0)
    (htab : L.__pgt_virtual_start + sizeof_pgt_t * L.__pgt_num ≤ 2 ^ 32)
    (h0 : 0 < init_vend L)
    (hroom : init_vend L + 12 * L.__pgt_num + L.PAGESIZE ≤ 2 ^ 32)
    (hfuel : 12 * L.__pgt_num ≤ fuel) :
    ∃ st1, _pmap_kernel_init L fuel st = some st1 ∧
      st1.kernel_pmap.pgt_entry_head = init_vend L ∧
      ∀ m, L.__pgt_num ≤ m →
        walk_entries st1.recs m st1.kernel_pmap.pgt_entry_head =
          (List.range L.__pgt_num).map (fun i =>
            { pgt := L.__pgt_virtual_start + 1024 * i
              next := if i + 1 < L.__pgt_num then init_vend L + 12 * (i + 1) else 0
              offset := 4096 - L.__pgt_num + i }) := by
  have hn : wrap32 L.__pgt_num = L.__pgt_num := wrap32_of_lt (by omega)
  have hsz : wrap32 (sizeof_pgt_entry_t * L.__pgt_num) = 12 * L.__pgt_num :=
    wrap32_of_lt (by unfold sizeof_pgt_entry_t; omega)
  have hcur : cursor { st with
      kernel_vend := init_vend L
      kernel_pend := init_pend L
      kernel_pmap := { st.kernel_pmap with pgd := L.__pgd_virtual_start } } = init_vend L := by
    simp [cursor, hstatic]
  obtain ⟨st3, k, hcall, -, -, -, -, -, -, -, -, -, hpm⟩ :=
    pmap_steal_memory_run L { st with
      kernel_vend := init_vend L
      kernel_pend := init_pend L
      kernel_pmap := { st.kernel_pmap with pgd := L.__pgd_virtual_start } }
      (12 * L.__pgt_num) fuel hPS (by rw [hcur]; exact hroom) (by rw [hcur]; simpa using hfuel)
  rw [hcur] at hcall
  obtain ⟨hpm2, hrecs⟩ := init_loop_recs L (init_vend L)
    { st3 with kernel_pmap := { st3.kernel_pmap with pgt_entry_head := init_vend L } }
    hN2 htab (by omega) L.__pgt_num (Nat.le_refl _)
  refine ⟨(List.range L.__pgt_num).foldl (init_entry L (init_vend L) L.__pgt_num)
    { st3 with kernel_pmap := { st3.kernel_pmap with pgt_entry_head := init_vend L } },
    ?_, ?_, ?_⟩
  · unfold _pmap_kernel_init
    simp only [hn, hsz, hcall]
  · rw [hpm2]
  · intro m hm
    rw [hpm2]
    have hw := walk_entries_from L (init_vend L) _ h0 hrecs L.__pgt_num 0 m (by omega) hm
    have hpos : 0 < L.__pgt_num := hN1
    simp only [hpos, if_true, Nat.mul_zero, Nat.add_zero] at hw
    rw [← List.range_eq_range'] at hw
    exact hw

/-- Witness for C5: the layout with sixteen pre-allocated tables, booted from
zero-initialised globals. -/
theorem kernel_init_entry_list_witness :
    ∃ st1, _pmap_kernel_init layout16 192 boot_state = some st1 ∧
      st1.kernel_pmap.pgt_entry_head = init_vend layout16 ∧
      ∀ m, layout16.__pgt_num ≤ m →
        walk_entries st1.recs m st1.kernel_pmap.pgt_entry_head =
          (List.range layout16.__pgt_num).map (fun i =>
            { pgt := layout16.__pgt_virtual_start + 1024 * i
              next := if i + 1 < layout16.__pgt_num then init_vend layout16 + 12 * (i + 1) else 0
              offset := 4096 - layout16.__pgt_num + i }) :=
  kernel_init_entry_list layout16 boot_state 192 (by decide) (by decide) (by decide) rfl
    (by decide) (by decide) (by decide) (by decide)

/-- The state `inited_state` is what `_pmap_kernel_init` computes on `layout16`
from `boot_state`, as far as extents, cursor and `kernel_pmap` go. -/
theorem inited_state_fields :
    (_pmap_kernel_init layout16 1 boot_state).map
        (fun st => (st.kernel_pend, st.kernel_vend, st.placement_addr, st.kernel_pmap)) =
      some (inited_state.kernel_pend, inited_state.kernel_vend, inited_state.placement_addr,
        inited_state.kernel_pmap) := by
  decide

/-! ## Spinlock engine: bit facts about the lock word -/

theorem or_lock_and_lock (w : Nat) : (w ||| SPIN_LOCK) &&& SPIN_LOCK = SPIN_LOCK := by
  apply Nat.eq_of_testBit_eq
  intro i
  simp only [Nat.testBit_and, Nat.testBit_or]
  cases w.testBit i <;> cases Nat.testBit SPIN_LOCK i <;> rfl

theorem or_lock_of_locked (w : Nat) (h : w &&& SPIN_LOCK ≠ 0) : w ||| SPIN_LOCK = w := by
  unfold SPIN_LOCK at h ⊢
  rw [Nat.and_one_is_mod] at h
  apply Nat.eq_of_testBit_eq
  intro i
  rw [Nat.testBit_or]
  rcases Nat.eq_zero_or_pos i with hi | hi
  · subst hi
    have hb : w.testBit 0 = true := by
      rw [Nat.testBit_zero]
      simp
      omega
    simp [hb]
  · have hb : Nat.testBit 1 i = false := by
      cases hb : Nat.testBit 1 i
      · rfl
      · exact absurd (Nat.testBit_one_eq_true_iff_self_eq_zero.mp hb) (by omega)
    simp [hb]

/-- Bit facts about a 32-bit lock word whose lock and enabled bits are clear,
after the lock bit and possibly the enabled bit have been set. -/
theorem free_word_bits (w x : Nat) (hw : w < 2 ^ 32) (hx : x = 0 ∨ x = 2)
    (hfree : w &&& (SPIN_LOCK ||| SPIN_ENABLED) = 0) :
    w &&& SPIN_LOCK = 0 ∧
    ((w ||| SPIN_LOCK) ||| x) &&& SPIN_ENABLED = x ∧
    ((w ||| SPIN_LOCK) ||| x) &&& SPIN_LOCK = SPIN_LOCK ∧
    ((w ||| SPIN_LOCK) ||| x) &&& not32 (SPIN_LOCK ||| SPIN_ENABLED) = w := by
  have key : ∀ y, y = 0 ∨ y = 2 → ∀ i, i < 32 → ∀ a : Bool,
      (a && Nat.testBit (SPIN_LOCK ||| SPIN_ENABLED) i) = false →
      (a && Nat.testBit SPIN_LOCK i) = Nat.testBit 0 i ∧
      ((a || Nat.testBit SPIN_LOCK i || Nat.testBit y i) && Nat.testBit SPIN_ENABLED i) =
        Nat.testBit y i ∧
      ((a || Nat.testBit SPIN_LOCK i || Nat.testBit y i) && Nat.testBit SPIN_LOCK i) =
        Nat.testBit SPIN_LOCK i ∧
      ((a || Nat.testBit SPIN_LOCK i || Nat.testBit y i) &&
        Nat.testBit (not32 (SPIN_LOCK ||| SPIN_ENABLED)) i) = a := by
    intro y hy
    rcases hy with rfl | rfl <;> decide
  have hx32 : x < 2 ^ 32 := by rcases hx with rfl | rfl <;> decide
  refine ⟨?_, ?_, ?_, ?_⟩
  · refine eq_of_testBit32 (and_mask_lt _ (by decide)) (by decide) ?_
    intro i hi
    simp only [Nat.testBit_and]
    exact (key x hx i hi _ (and_bit_false hfree i)).1
  · refine eq_of_testBit32 (and_mask_lt _ (by decide)) hx32 ?_
    intro i hi
    simp only [Nat.testBit_and, Nat.testBit_or]
    exact (key x hx i hi _ (and_bit_false hfree i)).2.1
  · refine eq_of_testBit32 (and_mask_lt _ (by decide)) (by decide) ?_
    intro i hi
    simp only [Nat.testBit_and, Nat.testBit_or]
    exact (key x hx i hi _ (and_bit_false hfree i)).2.2.1
  · refine eq_of_testBit32 (and_mask_lt _ (by decide)) hw ?_
    intro i hi
    simp only [Nat.testBit_and, Nat.testBit_or]
    exact (key x hx i hi _ (and_bit_false hfree i)).2.2.2

/-! ## Spinlock engine: claims -/

/-- C6 (evaluation of the code): from a zeroed lock word, one `spin_readlock`
gives the word `9` and the matching `spin_readunlock` gives `8`, not `0`: the
reader count stays at `1`. With two readers the words are `9, 25` after the
locks and `25, 25` after the unlocks: the lock bit is never cleared. -/
theorem readlock_cycle_not_free :
    readlock_n 1 1 0 = .ok [9] ∧ readunlock_n 1 9 = .ok [8] ∧
    readlock_n 1 2 0 = .ok [9, 25] ∧ readunlock_n 2 25 = .ok [25, 25] ∧
    GET_READLOCK_COUNT 8 = 1 ∧ 25 &&& SPIN_LOCK = SPIN_LOCK :=
  ⟨rfl, rfl, rfl, rfl, rfl, rfl⟩

/-- C7: for every interrupt-enabled state `e` and every 32-bit lock word with
the lock bit and the enabled bit clear, `spin_irqlock` returns after one
test-and-set with interrupts disabled and the lock bit set, and the matching
`spin_irqunlock` passes its assertion and leaves the interrupt-enabled state
equal to `e`, the lock bit clear and the lock word as it was before. -/
theorem irqlock_roundtrip (e : Bool) (w fuel : Nat) (hw : w < 2 ^ 32)
    (hfree : w &&& (SPIN_LOCK ||| SPIN_ENABLED) = 0) (hfuel : 0 < fuel) :
    ∃ c1 c2, spin_irqlock fuel { irq_enabled := e, lock := w } = .ok c1 ∧
      c1.irq_enabled = false ∧ c1.lock &&& SPIN_LOCK = SPIN_LOCK ∧
      spin_irqunlock c1 = .ok c2 ∧
      c2.irq_enabled = e ∧ c2.lock &&& SPIN_LOCK = 0 ∧ c2.lock = w := by
  obtain ⟨n, rfl⟩ : ∃ n, fuel = n + 1 := ⟨fuel - 1, by omega⟩
  have hx : ∀ b : Bool, wrap32 ((if b then 1 else 0) <<< 1) = 0 ∨
      wrap32 ((if b then 1 else 0) <<< 1) = 2 := by decide
  obtain ⟨h1, h2, h3, h4⟩ := free_word_bits w (wrap32 ((if e then 1 else 0) <<< 1)) hw (hx e) hfree
  have hlock : spin_lock (n + 1) w = .ok (w ||| SPIN_LOCK) := by
    simp [spin_lock, _spin_lock, atomic_test_and_set_bit, h1]
  have hval : (wrap32 ((if e then 1 else 0) <<< 1) != 0) = e := by
    cases e <;> decide
  refine ⟨Cpu.mk false ((w ||| SPIN_LOCK) ||| wrap32 ((if e then 1 else 0) <<< 1)),
    Cpu.mk e w, ?_, rfl, h3, ?_, rfl, h1, rfl⟩
  · simp only [spin_irqlock, interrupts_enabled, interrupts_disable, hlock, SET_ENABLED_BIT]
    rfl
  · have hk : kassert (((w ||| SPIN_LOCK) ||| wrap32 ((if e then 1 else 0) <<< 1)) &&&
        SPIN_LOCK) = .ok () := by
      rw [h3]
      rfl
    simp only [spin_irqunlock, spin_unlock, GET_ENABLED_BIT, _spin_unlock, h2, h4, hk, hval,
      interrupts_enable]
    cases e <;> rfl

/-- Witness for C7: interrupts enabled, lock word with two readers recorded
(`0x10`) and both low bits clear. -/
theorem irqlock_roundtrip_witness :
    ∃ c1 c2, spin_irqlock 1 { irq_enabled := true, lock := 0x10 } = .ok c1 ∧
      c1.irq_enabled = false ∧ c1.lock &&& SPIN_LOCK = SPIN_LOCK ∧
      spin_irqunlock c1 = .ok c2 ∧
      c2.irq_enabled = true ∧ c2.lock &&& SPIN_LOCK = 0 ∧ c2.lock = 0x10 :=
  irqlock_roundtrip true 0x10 1 (by decide) (by decide) (by decide)

/-- C8: on a lock word whose lock bit (bit 0) is clear, `spin_unlock` ends in
the fatal-assertion path and produces no unlocked word; on a lock word whose
lock bit is set the assertion passes and the unlock completes. -/
theorem spin_unlock_assertion (w : Nat) :
    (w &&& SPIN_LOCK = 0 → spin_unlock w = .error Fault.assertion) ∧
    (w &&& SPIN_LOCK ≠ 0 →
      kassert (w &&& SPIN_LOCK) = .ok () ∧
      spin_unlock w = .ok (_spin_unlock w (SPIN_LOCK ||| SPIN_ENABLED))) := by
  constructor
  · intro h
    simp only [spin_unlock, kassert, h]
    rfl
  · intro h
    have hk : kassert (w &&& SPIN_LOCK) = .ok () := by
      unfold kassert
      exact if_pos h
    refine ⟨hk, ?_⟩
    simp only [spin_unlock, hk]
    rfl

/-- Witness for C8: the never-locked word `0` and the locked word `1`. -/
theorem spin_unlock_assertion_witness :
    spin_unlock 0 = .error Fault.assertion ∧
    (kassert (1 &&& SPIN_LOCK) = .ok () ∧
      spin_unlock 1 = .ok (_spin_unlock 1 (SPIN_LOCK ||| SPIN_ENABLED))) :=
  ⟨(spin_unlock_assertion 0).1 (by decide), (spin_unlock_assertion 1).2 (by decide)⟩

/-- C9: `spin_trylock` is a single `atomic_test_and_set_bit` on the lock bit,
with no loop. On a lock word with the lock bit clear it returns `true` and the
lock bit is set afterwards; on a lock word with the lock bit already set it
returns `false` and the lock word is unchanged. -/
theorem spin_trylock_once (w : Nat) :
    spin_trylock w =
      ((atomic_test_and_set_bit w SPIN_LOCK).1, (atomic_test_and_set_bit w SPIN_LOCK).2 == 0) ∧
    (w &&& SPIN_LOCK = 0 →
      (spin_trylock w).2 = true ∧ (spin_trylock w).1 = w ||| SPIN_LOCK ∧
      (spin_trylock w).1 &&& SPIN_LOCK = SPIN_LOCK) ∧
    (w &&& SPIN_LOCK ≠ 0 → spin_trylock w = (w, false)) := by
  refine ⟨rfl, ?_, ?_⟩
  · intro h
    refine ⟨?_, rfl, or_lock_and_lock w⟩
    simp [spin_trylock, atomic_test_and_set_bit, h]
  · intro h
    simp only [spin_trylock, atomic_test_and_set_bit, or_lock_of_locked w h]
    simp [h]

/-- Witness for C9: the free word `0x10` and the held word `0x11`. -/
theorem spin_trylock_once_witness :
    ((spin_trylock 0x10).2 = true ∧ (spin_trylock 0x10).1 = 0x10 ||| SPIN_LOCK ∧
      (spin_trylock 0x10).1 &&& SPIN_LOCK = SPIN_LOCK) ∧
    spin_trylock 0x11 = (0x11, false) :=
  ⟨(spin_trylock_once 0x10).2.1 (by decide), (spin_trylock_once 0x11).2.2 (by decide)⟩

/-- C10 (evaluation of the code): `spin_init` leaves every lock word as it
was; a word holding `0xFFFFFFFF` at address `0x8000` still holds `0xFFFFFFFF`
after `spin_init`, it is not zero. -/
theorem spin_init_keeps_word :
    (∀ (heap : Nat → Nat) (lock : Nat), (spin_init heap lock).1 = heap) ∧
    (spin_init (fun _ => 0xFFFFFFFF) 0x8000).1 0x8000 = 0xFFFFFFFF ∧
    (spin_init (fun _ => 0xFFFFFFFF) 0x8000).1 0x8000 ≠ 0 :=
  ⟨fun _ _ => rfl, rfl, by decide⟩

/-! ## Bootstrap allocator: extents -/

/-- C11: a `pmap_steal_memory` call with `PAGESIZE` a power of two and no
32-bit wrap-around (the end of the request stays a page below `2 ^ 32`, the
physical end stays below `2 ^ 32`) returns and leaves `kernel_vend` and
`kernel_pend` greater than or equal to their values on entry; if both were
multiples of `PAGESIZE` on entry, both are multiples of `PAGESIZE` on exit. -/
theorem steal_extents_monotone_aligned (L : BootLayout) (st : PmapState) (size fuel : Nat)
    (hpow : ∃ j, L.PAGESIZE = 2 ^ j)
    (hnw : cursor st + size + L.PAGESIZE ≤ 2 ^ 32)
    (hpnw : st.kernel_pend + (cursor st + size - st.kernel_vend) + L.PAGESIZE ≤ 2 ^ 32)
    (hfuel : cursor st + size - st.kernel_vend ≤ fuel) :
    ∃ st1 p, pmap_steal_memory L fuel st size = some (st1, p) ∧
      st.kernel_vend ≤ st1.kernel_vend ∧ st.kernel_pend ≤ st1.kernel_pend ∧
      (st.kernel_vend % L.PAGESIZE = 0 → st.kernel_pend % L.PAGESIZE = 0 →
        st1.kernel_vend % L.PAGESIZE = 0 ∧ st1.kernel_pend % L.PAGESIZE = 0) := by
  have hPS : 0 < L.PAGESIZE := by
    obtain ⟨j, hj⟩ := hpow
    rw [hj]
    exact Nat.pos_pow_of_pos j (by decide)
  obtain ⟨st1, k, hrun, -, -, hvend, hpend, -, hover, -, -, -, -⟩ :=
    pmap_steal_memory_run L st size fuel hPS hnw hfuel
  have hpe : st1.kernel_pend = st.kernel_pend + k * L.PAGESIZE := by
    apply hpend
    show st.kernel_pend + k * L.PAGESIZE < 2 ^ 32
    rcases Nat.eq_zero_or_pos k with hk | hk
    · subst hk
      omega
    · have := hover hk
      omega
  refine ⟨st1, cursor st, hrun, by omega, by omega, ?_⟩
  intro hv hp
  rw [hvend, hpe, Nat.add_mul_mod_self_right, Nat.add_mul_mod_self_right]
  exact ⟨hv, hp⟩

/-- Witness for C11: a request of 5000 bytes after initialisation of
`layout16`. -/
theorem steal_extents_monotone_aligned_witness :
    ∃ st1 p, pmap_steal_memory layout16 5000 inited_state 5000 = some (st1, p) ∧
      inited_state.kernel_vend ≤ st1.kernel_vend ∧
      inited_state.kernel_pend ≤ st1.kernel_pend ∧
      (inited_state.kernel_vend % layout16.PAGESIZE = 0 →
        inited_state.kernel_pend % layout16.PAGESIZE = 0 →
        st1.kernel_vend % layout16.PAGESIZE = 0 ∧ st1.kernel_pend % layout16.PAGESIZE = 0) :=
  steal_extents_monotone_aligned layout16 inited_state 5000 5000 ⟨12, by decide⟩ (by decide)
    (by decide) (by decide)

/-! ## Bootstrap allocator: states after initialisation -/

theorem wrap32_lt (x : Nat) : wrap32 x < UINT32_MOD :=
  Nat.mod_lt x (by decide)

/-- Whenever the mapping loop stops, the virtual end has reached `end_`; a
32-bit virtual end stays 32-bit. No assumption on wrap-around is made. -/
theorem steal_map_loop_exit (L : BootLayout) (end_ : Nat) :
    ∀ (fuel : Nat) (st st1 : PmapState), steal_map_loop L end_ fuel st = some st1 →
      end_ ≤ st1.kernel_vend ∧ (st.kernel_vend < UINT32_MOD → st1.kernel_vend < UINT32_MOD) := by
  intro fuel
  induction fuel with
  | zero =>
    intro st st1 h
    by_cases hlt : st.kernel_vend < end_
    · simp [steal_map_loop, hlt] at h
    · simp only [steal_map_loop, hlt, if_false, Option.some.injEq] at h
      subst h
      exact ⟨Nat.le_of_not_lt hlt, fun hv => hv⟩
  | succ n ih =>
    intro st st1 h
    by_cases hlt : st.kernel_vend < end_
    · simp only [steal_map_loop, hlt, if_true] at h
      obtain ⟨h1, h2⟩ := ih _ st1 h
      exact ⟨h1, fun _ => h2 (wrap32_lt _)⟩
    · simp only [steal_map_loop, hlt, if_false, Option.some.injEq] at h
      subst h
      exact ⟨Nat.le_of_not_lt hlt, fun hv => hv⟩

/-- Whenever `pmap_steal_memory` returns, the cursor it leaves does not exceed
the mapped virtual end, and a 32-bit virtual end stays 32-bit. -/
theorem pmap_steal_memory_exit (L : BootLayout) (fuel size p : Nat) (st st1 : PmapState)
    (h : pmap_steal_memory L fuel st size = some (st1, p)) (hv : st.kernel_vend < UINT32_MOD) :
    st1.placement_addr ≤ st1.kernel_vend ∧ st1.kernel_vend < UINT32_MOD := by
  have hc : (if st.placement_addr = 0 then st.kernel_vend else st.placement_addr) =
      cursor st := rfl
  unfold pmap_steal_memory at h
  simp only [hc, ge_iff_le] at h
  by_cases hge : st.kernel_vend ≤ wrap32 (cursor st + size)
  · simp only [hge, if_true] at h
    cases hl : steal_map_loop L (wrap32 (cursor st + size)) fuel
        { st with placement_addr := cursor st } with
    | none =>
      rw [hl] at h
      exact absurd h (by simp)
    | some st2 =>
      rw [hl] at h
      simp only [Option.some.injEq, Prod.mk.injEq] at h
      obtain ⟨h1, -⟩ := h
      subst h1
      obtain ⟨ha, hb⟩ := steal_map_loop_exit L _ fuel _ st2 hl
      exact ⟨ha, hb hv⟩
  · simp only [hge, if_false, Option.some.injEq, Prod.mk.injEq] at h
    obtain ⟨h1, -⟩ := h
    subst h1
    exact ⟨by simp only; omega, hv⟩

theorem init_vend_lt (L : BootLayout) : init_vend L < UINT32_MOD := by
  unfold init_vend ROUND_UP ROUND_PAGE
  split
  · exact wrap32_lt _
  · exact wrap32_lt _

/-- The initialisation loop writes records only: cursor and virtual end are
as before. -/
theorem init_loop_frame (L : BootLayout) (head n : Nat) :
    ∀ (l : List Nat) (st : PmapState),
      (l.foldl (init_entry L head n) st).placement_addr = st.placement_addr ∧
      (l.foldl (init_entry L head n) st).kernel_vend = st.kernel_vend := by
  intro l
  induction l with
  | nil => intro st; exact ⟨rfl, rfl⟩
  | cons i l ih =>
    intro st
    rw [List.foldl_cons]
    obtain ⟨h1, h2⟩ := ih (init_entry L head n st i)
    exact ⟨h1, h2⟩

/-- In every state reached after initialisation the cursor does not exceed the
mapped virtual end, which is a 32-bit value. -/
theorem after_init_cursor (L : BootLayout) (st : PmapState) (h : AfterInit L st) :
    st.placement_addr ≤ st.kernel_vend ∧ st.kernel_vend < UINT32_MOD := by
  induction h with
  | init fuel st0 st hinit =>
    unfold _pmap_kernel_init at hinit
    simp only at hinit
    split at hinit
    · exact absurd hinit (by simp)
    · rename_i st3 pentries hcall
      simp only [Option.some.injEq] at hinit
      subst hinit
      obtain ⟨h1, h2⟩ := pmap_steal_memory_exit L fuel _ pentries _ st3 hcall (init_vend_lt L)
      obtain ⟨f1, f2⟩ := init_loop_frame L pentries (wrap32 L.__pgt_num)
        (List.range (wrap32 L.__pgt_num))
        { st3 with kernel_pmap := { st3.kernel_pmap with pgt_entry_head := pentries } }
      rw [f1, f2]
      exact ⟨h1, h2⟩
  | steal fuel size p st st1 _ hcall ih =>
    exact pmap_steal_memory_exit L fuel size p st st1 hcall ih.2

/-- C12: `pmap_steal_memory(0)`, called in any state reached after
`_pmap_kernel_init` has returned, returns for every fuel; it returns the
current placement cursor, leaves the cursor equal to the returned pointer,
leaves `kernel_vend` and `kernel_pend` unchanged, and changes no page-table
entry, no memory byte and no stored record. -/
theorem steal_zero_changes_nothing (L : BootLayout) (st : PmapState) (fuel : Nat)
    (h : AfterInit L st) :
    ∃ st1, pmap_steal_memory L fuel st 0 = some (st1, cursor st) ∧
      st1.placement_addr = cursor st ∧
      st1.kernel_vend = st.kernel_vend ∧ st1.kernel_pend = st.kernel_pend ∧
      st1.pte = st.pte ∧ st1.mem = st.mem ∧ st1.recs = st.recs := by
  obtain ⟨hle, h32⟩ := after_init_cursor L st h
  have hcle : cursor st ≤ st.kernel_vend := by
    unfold cursor
    split
    · exact Nat.le_refl _
    · exact hle
  have hw : wrap32 (cursor st + 0) = cursor st := by
    unfold wrap32
    exact Nat.mod_eq_of_lt (by omega)
  have hc : (if st.placement_addr = 0 then st.kernel_vend else st.placement_addr) =
      cursor st := rfl
  have hmem : memset st.mem (cursor st) 0x0 0 = st.mem := by
    funext a
    unfold memset
    have : ¬ (cursor st ≤ a ∧ a < cursor st + 0) := by omega
    simp only [this, if_false]
  have hloop : steal_map_loop L (cursor st) fuel { st with placement_addr := cursor st } =
      some { st with placement_addr := cursor st } := by
    have hnot : ¬ st.kernel_vend < cursor st := by omega
    cases fuel <;> simp [steal_map_loop, hnot]
  refine ⟨{ st with placement_addr := cursor st }, ?_, rfl, rfl, rfl, rfl, rfl, rfl⟩
  unfold pmap_steal_memory
  simp only [hc, hw, ge_iff_le]
  by_cases hge : st.kernel_vend ≤ cursor st
  · simp only [hge, if_true, hloop, hmem]
  · simp only [hge, if_false, hmem]

/-- Witness for C12: the state in which `_pmap_kernel_init` returns on
`layout16`. -/
theorem steal_zero_changes_nothing_witness :
    ∃ st, _pmap_kernel_init layout16 1 boot_state = some st ∧
      ∃ st1, pmap_steal_memory layout16 0 st 0 = some (st1, cursor st) ∧
        st1.placement_addr = cursor st ∧
        st1.kernel_vend = st.kernel_vend ∧ st1.kernel_pend = st.kernel_pend ∧
        st1.pte = st.pte ∧ st1.mem = st.mem ∧ st1.recs = st.recs := by
  cases h : _pmap_kernel_init layout16 1 boot_state with
  | none =>
    have hs : (_pmap_kernel_init layout16 1 boot_state).isSome = true := by decide
    rw [h] at hs
    exact absurd hs (by decide)
  | some st =>
    exact ⟨st, rfl, steal_zero_changes_nothing layout16 st 0 (AfterInit.init 1 boot_state st h)⟩

/-! ## Directory and table indices -/

theorem and_shl_shr (v m n : Nat) : (v &&& (m <<< n)) >>> n = (v >>> n) &&& m := by
  apply Nat.eq_of_testBit_eq
  intro i
  simp only [Nat.testBit_shiftRight, Nat.testBit_and, Nat.testBit_shiftLeft]
  have h1 : n + i ≥ n := Nat.le_add_right n i
  have h2 : n + i - n = i := Nat.add_sub_cancel_left n i
  simp [h1, h2]

/-- The macro `PGD_GET_INDEX` in arithmetic form. -/
theorem PGD_GET_INDEX_eq (v : Nat) :
    PGD_GET_INDEX v = (v >>> 20) &&& 0xFFF ∧ PGD_GET_INDEX v = v / 2 ^ 20 % 4096 := by
  have h : PGD_GET_INDEX v = (v >>> 20) &&& 0xFFF := by
    unfold PGD_GET_INDEX
    have : (0xFFF00000 : Nat) = 0xFFF <<< 20 := by decide
    rw [this, and_shl_shr]
  refine ⟨h, ?_⟩
  rw [h, Nat.shiftRight_eq_div_pow]
  exact Nat.and_pow_two_sub_one_eq_mod _ 12

/-- The macro `PGT_GET_INDEX` in arithmetic form. -/
theorem PGT_GET_INDEX_eq (v : Nat) :
    PGT_GET_INDEX v = (v >>> 12) &&& 0xFF ∧ PGT_GET_INDEX v = v / 2 ^ 12 % 256 := by
  have h : PGT_GET_INDEX v = (v >>> 12) &&& 0xFF := by
    unfold PGT_GET_INDEX
    have : (0x000FF000 : Nat) = 0xFF <<< 12 := by decide
    rw [this, and_shl_shr]
  refine ⟨h, ?_⟩
  rw [h, Nat.shiftRight_eq_div_pow]
  exact Nat.and_pow_two_sub_one_eq_mod _ 8

/-- Two 32-bit addresses in different 4 KiB pages are mapped through different
page-table slots. -/
theorem slot_injective (N v w : Nat) (hv : v < 2 ^ 32) (hw : w < 2 ^ 32)
    (hne : v / 4096 ≠ w / 4096) :
    ¬ (sub32 (PGD_GET_INDEX v) (sub32 PGDNENTRIES N) =
        sub32 (PGD_GET_INDEX w) (sub32 PGDNENTRIES N) ∧
      PGT_GET_INDEX v = PGT_GET_INDEX w) := by
  rw [(PGD_GET_INDEX_eq v).2, (PGD_GET_INDEX_eq w).2, (PGT_GET_INDEX_eq v).2,
    (PGT_GET_INDEX_eq w).2]
  intro ⟨h1, h2⟩
  have hc : sub32 PGDNENTRIES N < 2 ^ 32 := Nat.mod_lt _ (by decide)
  generalize sub32 PGDNENTRIES N = c at h1 hc
  unfold sub32 wrap32 UINT32_MOD at h1
  norm_num at h1 h2 hv hw hc
  omega

/-- The entry built by the mapping loop is the frame address with `0x44E`. -/
theorem PTE_CREATE_attrs (a : Nat) :
    PTE_CREATE a (PTE_S_BIT ||| PTE_TEX0_BIT ||| PTE_CB3) = a ||| 0x44E := by
  have h : (0x44E : Nat) = PTE_PAGE_BIT ||| (PTE_S_BIT ||| PTE_TEX0_BIT ||| PTE_CB3) := by
    decide
  unfold PTE_CREATE
  rw [h, Nat.or_comm PTE_PAGE_BIT a, Nat.or_assoc]

/-! ## Bootstrap allocator: the entries written by the mapping loop -/

/-- With 4 KiB pages, a page-aligned virtual end and an end address a page
below `2 ^ 32`, the mapping loop covers `K` new pages; page `k` gets the entry
built from the `k`-th physical frame in the slot selected by its virtual
address, and every other slot keeps its content. -/
theorem steal_map_loop_entries (L : BootLayout) (end_ : Nat) (hPS : L.PAGESIZE = 4096)
    (hend : end_ + 4096 ≤ 2 ^ 32) :
    ∀ (fuel : Nat) (st : PmapState), st.kernel_vend % 4096 = 0 →
      st.kernel_pend < 2 ^ 32 → end_ - st.kernel_vend ≤ fuel →
      ∃ st1 K, steal_map_loop L end_ fuel st = some st1 ∧
        st1.kernel_vend = st.kernel_vend + K * 4096 ∧
        (st.kernel_vend < end_ → 0 < K) ∧
        (0 < K → st1.kernel_vend < end_ + 4096) ∧
        st1.placement_addr = st.placement_addr ∧
        (∀ k, k < K →
          st1.pte (sub32 (PGD_GET_INDEX (st.kernel_vend + k * 4096)) (sub32 PGDNENTRIES L.__pgt_num))
            (PGT_GET_INDEX (st.kernel_vend + k * 4096)) =
            wrap32 (st.kernel_pend + k * 4096) ||| 0x44E) ∧
        (∀ t s, (∀ k, k < K →
            ¬ (t = sub32 (PGD_GET_INDEX (st.kernel_vend + k * 4096))
                (sub32 PGDNENTRIES L.__pgt_num) ∧
              s = PGT_GET_INDEX (st.kernel_vend + k * 4096))) →
          st1.pte t s = st.pte t s) := by
  intro fuel
  induction fuel with
  | zero =>
    intro st _ _ hf
    have hnot : ¬ st.kernel_vend < end_ := by omega
    refine ⟨st, 0, by simp [steal_map_loop, hnot], by simp, fun h => absurd h hnot,
      fun h => absurd h (Nat.lt_irrefl 0), rfl, fun k hk => absurd hk (Nat.not_lt_zero k),
      fun _ _ _ => rfl⟩
  | succ n ih =>
    intro st hal hp32 hf
    by_cases hlt : st.kernel_vend < end_
    · have hv : wrap32 (st.kernel_vend + L.PAGESIZE) = st.kernel_vend + 4096 := by
        rw [hPS]
        exact wrap32_of_lt (by omega)
      obtain ⟨st1, K, hrun, hvend, -, hover, hpl, hent, hoth⟩ :=
        ih { st with
          pte := pte_store st.pte
            (sub32 (PGD_GET_INDEX st.kernel_vend) (sub32 PGDNENTRIES L.__pgt_num))
            (PGT_GET_INDEX st.kernel_vend)
            (PTE_CREATE st.kernel_pend (PTE_S_BIT ||| PTE_TEX0_BIT ||| PTE_CB3))
          kernel_vend := wrap32 (st.kernel_vend + L.PAGESIZE)
          kernel_pend := wrap32 (st.kernel_pend + L.PAGESIZE) }
          (by simp only [hv]; omega) (by simp only; exact wrap32_lt _)
          (by simp only [hv]; omega)
      simp only [hv] at hvend hent hoth
      simp only at hpl
      have hlast : st1.kernel_vend < end_ + 4096 := by
        rcases Nat.eq_zero_or_pos K with hK | hK
        · subst hK
          omega
        · exact hover hK
      have hfirst : st1.pte
          (sub32 (PGD_GET_INDEX st.kernel_vend) (sub32 PGDNENTRIES L.__pgt_num))
          (PGT_GET_INDEX st.kernel_vend) = st.kernel_pend ||| 0x44E := by
        rw [hoth]
        · simp only [pte_store, and_self, if_true, PTE_CREATE_attrs]
        · intro k hk hsame
          exact slot_injective L.__pgt_num st.kernel_vend (st.kernel_vend + 4096 + k * 4096)
            (by omega) (by omega) (by omega) hsame
      refine ⟨st1, K + 1, ?_, ?_, fun _ => Nat.succ_pos K, fun _ => hlast, hpl, ?_, ?_⟩
      · simp only [steal_map_loop, hlt, if_true]
        exact hrun
      · rw [hvend]
        omega
      · intro k hk
        rcases Nat.eq_zero_or_pos k with h0 | hpos
        · subst h0
          simp only [Nat.zero_mul, Nat.add_zero, wrap32_of_lt hp32]
          exact hfirst
        · obtain ⟨j, rfl⟩ : ∃ j, k = j + 1 := ⟨k - 1, by omega⟩
          have hj := hent j (by omega)
          have e1 : st.kernel_vend + (j + 1) * 4096 = st.kernel_vend + 4096 + j * 4096 := by
            omega
          have e2 : wrap32 (wrap32 (st.kernel_pend + L.PAGESIZE) + j * 4096) =
              wrap32 (st.kernel_pend + (j + 1) * 4096) := by
            rw [hPS]
            unfold wrap32 UINT32_MOD
            omega
          rw [e1, hj, e2]
      · intro t s hts
        rw [hoth t s]
        · have h0 := hts 0 (Nat.succ_pos K)
          simp only [Nat.zero_mul, Nat.add_zero] at h0
          simp only [pte_store, h0, if_false]
        · intro k hk
          have hk1 := hts (k + 1) (by omega)
          have e1 : st.kernel_vend + (k + 1) * 4096 = st.kernel_vend + 4096 + k * 4096 := by
            omega
          rw [e1] at hk1
          exact hk1
    · have hle : end_ ≤ st.kernel_vend := Nat.le_of_not_lt hlt
      refine ⟨st, 0, by simp [steal_map_loop, hlt], by simp, fun h => absurd h hlt,
        fun h => absurd h (Nat.lt_irrefl 0), rfl, fun k hk => absurd hk (Nat.not_lt_zero k),
        fun _ _ _ => rfl⟩

theorem PGD_GET_INDEX_of_lt (v : Nat) (hv : v < 2 ^ 32) : PGD_GET_INDEX v = v >>> 20 := by
  rw [(PGD_GET_INDEX_eq v).2, Nat.shiftRight_eq_div_pow]
  exact Nat.mod_eq_of_lt (by omega)

/-- C14: when a `pmap_steal_memory` call grows the mapping (page-aligned
extents, `PAGESIZE = 4096`, `N = __pgt_num` pre-allocated tables, the end of
the request a page below `2 ^ 32` so that the loop stops), it covers `K > 0`
new pages; for the page at `v = old kernel_vend + k * 4096` it writes the
entry `(old kernel_pend + k * 4096) | 0x44E` (the sum taken as a 32-bit value)
into slot `pte[(v >> 12) & 0xFF]` of table number `(v >> 20) - (4096 - N)`
(32-bit subtraction), and it changes no other page-table slot. -/
theorem steal_growth_entries (L : BootLayout) (st : PmapState) (size fuel : Nat)
    (hPS : L.PAGESIZE = 4096)
    (hv : st.kernel_vend % 4096 = 0) (hp : st.kernel_pend % 4096 = 0)
    (hp32 : st.kernel_pend < 2 ^ 32)
    (hgrow : st.kernel_vend < wrap32 (cursor st + size))
    (hend : wrap32 (cursor st + size) + 4096 ≤ 2 ^ 32)
    (hfuel : wrap32 (cursor st + size) - st.kernel_vend ≤ fuel) :
    ∃ st1 p K, pmap_steal_memory L fuel st size = some (st1, p) ∧
      0 < K ∧ st1.kernel_vend = st.kernel_vend + K * 4096 ∧
      0x44E = PTE_PAGE_BIT ||| PTE_S_BIT ||| PTE_TEX0_BIT ||| PTE_CB3 ∧
      (∀ k, k < K →
        st1.pte (sub32 ((st.kernel_vend + k * 4096) >>> 20) (sub32 4096 L.__pgt_num))
          (((st.kernel_vend + k * 4096) >>> 12) &&& 0xFF) =
          wrap32 (st.kernel_pend + k * 4096) ||| 0x44E) ∧
      (st.kernel_pend + K * 4096 ≤ 2 ^ 32 →
        ∀ k, k < K → wrap32 (st.kernel_pend + k * 4096) = st.kernel_pend + k * 4096) ∧
      (∀ t s, (∀ k, k < K →
          ¬ (t = sub32 ((st.kernel_vend + k * 4096) >>> 20) (sub32 4096 L.__pgt_num) ∧
            s = ((st.kernel_vend + k * 4096) >>> 12) &&& 0xFF)) →
        st1.pte t s = st.pte t s) := by
  obtain ⟨st1, K, hrun, hvend, hpos, hover, hpl, hent, hoth⟩ :=
    steal_map_loop_entries L (wrap32 (cursor st + size)) hPS hend fuel
      { st with placement_addr := cursor st } hv hp32 hfuel
  simp only at hvend hpos hover hpl hent hoth
  have hK : 0 < K := hpos hgrow
  have hidx : ∀ k, k < K →
      PGD_GET_INDEX (st.kernel_vend + k * 4096) = (st.kernel_vend + k * 4096) >>> 20 := by
    intro k hk
    apply PGD_GET_INDEX_of_lt
    have := hover hK
    omega
  have hc : (if st.placement_addr = 0 then st.kernel_vend else st.placement_addr) =
      cursor st := rfl
  refine ⟨{ st1 with
      mem := memset st1.mem st1.placement_addr 0x0 size
      placement_addr := wrap32 (cursor st + size) }, cursor st, K, ?_, hK, hvend, by decide,
    ?_, ?_, ?_⟩
  · unfold pmap_steal_memory
    simp only [hc, ge_iff_le, Nat.le_of_lt hgrow, if_true, hrun]
  · intro k hk
    have := hent k hk
    rw [hidx k hk, (PGT_GET_INDEX_eq _).1] at this
    exact this
  · intro hno k hk
    exact wrap32_of_lt (by omega)
  · intro t s hts
    apply hoth t s
    intro k hk
    rw [hidx k hk, (PGT_GET_INDEX_eq _).1]
    exact hts k hk

/-- Witness for C14: after initialisation of `layout16`, a request of 5000
bytes ends at `0xFF109448`, above the mapped end `0xFF109000`. -/
theorem steal_growth_entries_witness :
    ∃ st1 p K, pmap_steal_memory layout16 5000 inited_state 5000 = some (st1, p) ∧
      0 < K ∧ st1.kernel_vend = inited_state.kernel_vend + K * 4096 ∧
      0x44E = PTE_PAGE_BIT ||| PTE_S_BIT ||| PTE_TEX0_BIT ||| PTE_CB3 ∧
      (∀ k, k < K →
        st1.pte (sub32 ((inited_state.kernel_vend + k * 4096) >>> 20)
            (sub32 4096 layout16.__pgt_num))
          (((inited_state.kernel_vend + k * 4096) >>> 12) &&& 0xFF) =
          wrap32 (inited_state.kernel_pend + k * 4096) ||| 0x44E) ∧
      (inited_state.kernel_pend + K * 4096 ≤ 2 ^ 32 →
        ∀ k, k < K →
          wrap32 (inited_state.kernel_pend + k * 4096) = inited_state.kernel_pend + k * 4096) ∧
      (∀ t s, (∀ k, k < K →
          ¬ (t = sub32 ((inited_state.kernel_vend + k * 4096) >>> 20)
              (sub32 4096 layout16.__pgt_num) ∧
            s = ((inited_state.kernel_vend + k * 4096) >>> 12) &&& 0xFF)) →
        st1.pte t s = inited_state.pte t s) :=
  steal_growth_entries layout16 inited_state 5000 5000 rfl (by decide) (by decide) (by decide)
    (by decide) (by decide) (by decide)

theorem index_same_page (a b : Nat) (h : a / 4096 = b / 4096) :
    PGD_GET_INDEX a = PGD_GET_INDEX b ∧ PGT_GET_INDEX a = PGT_GET_INDEX b := by
  rw [(PGD_GET_INDEX_eq a).2, (PGD_GET_INDEX_eq b).2, (PGT_GET_INDEX_eq a).2,
    (PGT_GET_INDEX_eq b).2]
  norm_num
  omega

/-- A call whose request reaches the mapped virtual end, with 4 KiB pages, a
page-aligned virtual end and the request end a page below `2 ^ 32`: the call
returns the cursor, the new virtual end is `K` pages further and covers the
request, and the slot of each of the `K` pages holds the entry built from its
physical frame. -/
theorem pmap_steal_memory_entries (L : BootLayout) (st : PmapState) (size fuel : Nat)
    (hPS : L.PAGESIZE = 4096) (hv : st.kernel_vend % 4096 = 0)
    (hp32 : st.kernel_pend < 2 ^ 32)
    (hnw : cursor st + size + 4096 ≤ 2 ^ 32)
    (hreach : st.kernel_vend ≤ cursor st + size)
    (hfuel : cursor st + size - st.kernel_vend ≤ fuel) :
    ∃ st1 K, pmap_steal_memory L fuel st size = some (st1, cursor st) ∧
      st1.kernel_vend = st.kernel_vend + K * 4096 ∧
      cursor st + size ≤ st1.kernel_vend ∧
      (∀ k, k < K →
        st1.pte (sub32 (PGD_GET_INDEX (st.kernel_vend + k * 4096)) (sub32 PGDNENTRIES L.__pgt_num))
          (PGT_GET_INDEX (st.kernel_vend + k * 4096)) =
          wrap32 (st.kernel_pend + k * 4096) ||| 0x44E) := by
  have hw : wrap32 (cursor st + size) = cursor st + size := wrap32_of_lt (by omega)
  obtain ⟨st1, K, hrun, hvend, -, -, -, hent, -⟩ :=
    steal_map_loop_entries L (cursor st + size) hPS hnw fuel
      { st with placement_addr := cursor st } hv hp32 hfuel
  obtain ⟨hexit, -⟩ := steal_map_loop_exit L _ fuel _ st1 hrun
  simp only at hvend hent
  have hc : (if st.placement_addr = 0 then st.kernel_vend else st.placement_addr) =
      cursor st := rfl
  refine ⟨{ st1 with
      mem := memset st1.mem st1.placement_addr 0x0 size
      placement_addr := cursor st + size }, K, ?_, hvend, hexit, hent⟩
  unfold pmap_steal_memory
  simp only [hc, hw, ge_iff_le, hreach, if_true, hrun]

/-- C15: after a `pmap_steal_memory(s)` call with no 32-bit wrap-around (the
end of the request stays a page below `2 ^ 32`, `PAGESIZE > 0`) the call has
returned the cursor and the end of the returned range does not exceed the
mapped virtual end: `returned + s ≤ kernel_vend`. With the 4 KiB pages of the
second-level tables and a page-aligned `kernel_vend` on entry, every address
`a` of `[returned, returned + s)` lies in a page mapped before the call
(`a < old kernel_vend`) or in a page mapped by the call: the slot selected by
`a` holds the leaf entry `frame | 0x44E`, where `frame` is the old
`kernel_pend` advanced by as many pages as `a`'s page lies above the old
`kernel_vend`. -/
theorem steal_range_mapped (L : BootLayout) (st : PmapState) (size fuel : Nat)
    (hPS : 0 < L.PAGESIZE) (hnw : cursor st + size + L.PAGESIZE ≤ 2 ^ 32)
    (hfuel : cursor st + size - st.kernel_vend ≤ fuel) :
    ∃ st1 p, pmap_steal_memory L fuel st size = some (st1, p) ∧
      p = cursor st ∧ p + size ≤ st1.kernel_vend ∧
      (L.PAGESIZE = 4096 → st.kernel_vend % 4096 = 0 → st.kernel_pend < 2 ^ 32 →
        ∀ a, p ≤ a → a < p + size →
          a < st.kernel_vend ∨
          (st.kernel_vend ≤ a ∧ a < st1.kernel_vend ∧
            st1.pte (sub32 (PGD_GET_INDEX a) (sub32 PGDNENTRIES L.__pgt_num))
              (PGT_GET_INDEX a) =
              wrap32 (st.kernel_pend + (a - st.kernel_vend) / 4096 * 4096) ||| 0x44E)) := by
  obtain ⟨st1, k, hrun, -, -, -, -, hreach, -, -, -, -, -⟩ :=
    pmap_steal_memory_run L st size fuel hPS hnw hfuel
  refine ⟨st1, cursor st, hrun, rfl, hreach, ?_⟩
  intro h4k hal hp32 a ha1 ha2
  by_cases hbefore : a < st.kernel_vend
  · exact Or.inl hbefore
  · right
    have hge : st.kernel_vend ≤ a := Nat.le_of_not_lt hbefore
    obtain ⟨st2, K, hrun2, hvend, -, hent⟩ :=
      pmap_steal_memory_entries L st size fuel h4k hal hp32 (by omega) (by omega) hfuel
    have hsame : st1 = st2 := by
      have := hrun.symm.trans hrun2
      simp only [Option.some.injEq, Prod.mk.injEq, and_true] at this
      exact this
    subst hsame
    have hk : (a - st.kernel_vend) / 4096 < K := by omega
    have hpage : a / 4096 = (st.kernel_vend + (a - st.kernel_vend) / 4096 * 4096) / 4096 := by
      omega
    obtain ⟨hi1, hi2⟩ := index_same_page a _ hpage
    rw [hi1, hi2]
    exact ⟨hge, by omega, hent _ hk⟩

/-- Witness for C15: a request of 5000 bytes after initialisation of
`layout16`; the range `0xFF1080C0 .. 0xFF109447` ends in the page mapped by
the call. -/
theorem steal_range_mapped_witness :
    ∃ st1 p, pmap_steal_memory layout16 5000 inited_state 5000 = some (st1, p) ∧
      p = cursor inited_state ∧ p + 5000 ≤ st1.kernel_vend ∧
      ∀ a, p ≤ a → a < p + 5000 →
        a < inited_state.kernel_vend ∨
        (inited_state.kernel_vend ≤ a ∧ a < st1.kernel_vend ∧
          st1.pte (sub32 (PGD_GET_INDEX a) (sub32 PGDNENTRIES layout16.__pgt_num))
            (PGT_GET_INDEX a) =
            wrap32 (inited_state.kernel_pend + (a - inited_state.kernel_vend) / 4096 * 4096) |||
              0x44E) := by
  obtain ⟨st1, p, h1, h2, h3, h4⟩ :=
    steal_range_mapped layout16 inited_state 5000 5000 (by decide) (by decide) (by decide)
  exact ⟨st1, p, h1, h2, h3, h4 rfl (by decide) (by decide)⟩

/-- With 4 KiB pages and a page-aligned 32-bit virtual end, the mapping loop
never stops when `end_` lies in the last page of the address space: the
virtual end wraps to `0` and stays below `end_`. -/
theorem steal_map_loop_diverges (L : BootLayout) (end_ : Nat) (hPS : L.PAGESIZE = 4096)
    (hend : 2 ^ 32 < end_ + 4096) :
    ∀ (fuel : Nat) (st : PmapState), st.kernel_vend % 4096 = 0 → st.kernel_vend < 2 ^ 32 →
      steal_map_loop L end_ fuel st = none := by
  intro fuel
  induction fuel with
  | zero =>
    intro st hal h32
    have hlt : st.kernel_vend < end_ := by omega
    simp [steal_map_loop, hlt]
  | succ n ih =>
    intro st hal h32
    have hlt : st.kernel_vend < end_ := by omega
    simp only [steal_map_loop, hlt, if_true]
    apply ih
    · simp only [hPS, wrap32, UINT32_MOD]
      omega
    · exact wrap32_lt _

/-- C18: for every table count `N` with `1 ≤ N ≤ 4096` and every 32-bit
virtual address `v` in the kernel range (`v ≥ (4096 - N) * 2 ^ 20`), the
indices used by the mapping loop are in bounds: `PGD_GET_INDEX(v) - (4096 - N)`
does not wrap below zero and is smaller than `N`, and `PGT_GET_INDEX(v)` is
smaller than 256. -/
theorem growth_indices_in_bounds (N v : Nat) (hN1 : 1 ≤ N) (hN2 : N ≤ 4096)
    (hv : v < 2 ^ 32) (hk : (4096 - N) * 2 ^ 20 ≤ v) :
    4096 - N ≤ PGD_GET_INDEX v ∧
    PGD_GET_INDEX v - (4096 - N) < N ∧
    sub32 (PGD_GET_INDEX v) (sub32 PGDNENTRIES N) = PGD_GET_INDEX v - (4096 - N) ∧
    PGT_GET_INDEX v < PGTNENTRIES := by
  rw [(PGD_GET_INDEX_eq v).2, (PGT_GET_INDEX_eq v).2]
  unfold sub32 wrap32 UINT32_MOD PGDNENTRIES PGTNENTRIES
  norm_num at hv hk ⊢
  omega

/-- Witness for C18: sixteen tables and the first address after the
initialised kernel of `layout16`. -/
theorem growth_indices_in_bounds_witness :
    4096 - 16 ≤ PGD_GET_INDEX 0xFF109000 ∧
    PGD_GET_INDEX 0xFF109000 - (4096 - 16) < 16 ∧
    sub32 (PGD_GET_INDEX 0xFF109000) (sub32 PGDNENTRIES 16) =
      PGD_GET_INDEX 0xFF109000 - (4096 - 16) ∧
    PGT_GET_INDEX 0xFF109000 < PGTNENTRIES :=
  growth_indices_in_bounds 16 0xFF109000 (by decide) (by decide) (by decide) (by decide)

/-! ## Spinlock engine: further claims -/

/-- C13 (evaluation of the code): one schedule of whole calls on a zeroed
lock word. Context A runs `spin_readlock` (word `9`) and `spin_readunlock`
(word `8`, reader count still `1`). Context B then runs `spin_readlock`: it
returns with the word `24`, whose lock bit is clear, so B is inside as a
reader without the plain lock. Context C then runs `spin_writelock`: it
returns at its first test-and-set with the word `25`, so C is inside as a
writer while B is inside as a reader. -/
theorem reader_and_writer_inside :
    spin_readlock 1 0 = .ok 9 ∧ spin_readunlock 9 = .ok 8 ∧
    spin_readlock 1 8 = .ok 24 ∧ 24 &&& SPIN_LOCK = 0 ∧
    spin_writelock 1 24 = .ok 25 :=
  ⟨rfl, rfl, rfl, rfl, rfl⟩

/-- C16 (evaluation of the code): on the lock word `9` (one reader recorded,
lock bit held, lightswitch clear) `spin_readlock` returns the word `25`: the
reader count goes from `1` to `3`, not to `2`. -/
theorem readlock_count_jumps :
    spin_readlock 1 9 = .ok 25 ∧ 9 &&& SPIN_LIGHTSWITCH = 0 ∧
    GET_READLOCK_COUNT 9 = 1 ∧ GET_READLOCK_COUNT 25 = 3 ∧
    GET_READLOCK_COUNT 25 ≠ GET_READLOCK_COUNT 9 + 1 :=
  ⟨rfl, rfl, rfl, rfl, by decide⟩

/-- C17: on every 32-bit lock word with the lock bit set, `spin_unlock`
completes, clears bit 0 (lock) and bit 1 (previous interrupt state) and
leaves every other bit unchanged, in particular the lightswitch bit and the
reader count. -/
theorem spin_unlock_clears_low_bits (w : Nat) (hw : w < 2 ^ 32) (hl : w &&& SPIN_LOCK ≠ 0) :
    ∃ w1, spin_unlock w = .ok w1 ∧
      w1.testBit 0 = false ∧ w1.testBit 1 = false ∧
      (∀ i, 2 ≤ i → w1.testBit i = w.testBit i) ∧
      w1 &&& SPIN_LIGHTSWITCH = w &&& SPIN_LIGHTSWITCH ∧
      GET_READLOCK_COUNT w1 = GET_READLOCK_COUNT w := by
  have hk : kassert (w &&& SPIN_LOCK) = .ok () := by
    unfold kassert
    exact if_pos hl
  have hrun : spin_unlock w = .ok (w &&& not32 (SPIN_LOCK ||| SPIN_ENABLED)) := by
    simp only [spin_unlock, hk, _spin_unlock]
    rfl
  have key : ∀ i, i < 32 →
      Nat.testBit (not32 (SPIN_LOCK ||| SPIN_ENABLED)) i = decide (2 ≤ i) := by
    decide
  have hbits : ∀ i, 2 ≤ i →
      (w &&& not32 (SPIN_LOCK ||| SPIN_ENABLED)).testBit i = w.testBit i := by
    intro i hi
    rw [Nat.testBit_and]
    by_cases h32 : i < 32
    · rw [key i h32]
      simp [hi]
    · have hwi : w.testBit i = false :=
        Nat.testBit_lt_two_pow (lt_of_lt_of_le hw (Nat.pow_le_pow_right (by decide) (by omega)))
      simp [hwi]
  refine ⟨_, hrun, ?_, ?_, hbits, ?_, ?_⟩
  · rw [Nat.testBit_and, key 0 (by decide)]
    simp
  · rw [Nat.testBit_and, key 1 (by decide)]
    simp
  · apply Nat.eq_of_testBit_eq
    intro i
    simp only [Nat.testBit_and]
    by_cases hi : 2 ≤ i
    · rw [← Nat.testBit_and, hbits i hi]
    · have h4 : Nat.testBit SPIN_LIGHTSWITCH i = false := by
        have : i = 0 ∨ i = 1 := by omega
        rcases this with rfl | rfl <;> decide
      simp [h4]
  · unfold GET_READLOCK_COUNT
    apply Nat.eq_of_testBit_eq
    intro i
    rw [Nat.testBit_shiftRight, Nat.testBit_shiftRight]
    exact hbits (3 + i) (by omega)

/-- Witness for C17: the word `0x1B` (lock and enabled bits set, reader
count 3). -/
theorem spin_unlock_clears_low_bits_witness :
    ∃ w1, spin_unlock 0x1B = .ok w1 ∧
      w1.testBit 0 = false ∧ w1.testBit 1 = false ∧
      (∀ i, 2 ≤ i → w1.testBit i = Nat.testBit 0x1B i) ∧
      w1 &&& SPIN_LIGHTSWITCH = 0x1B &&& SPIN_LIGHTSWITCH ∧
      GET_READLOCK_COUNT w1 = GET_READLOCK_COUNT 0x1B :=
  spin_unlock_clears_low_bits 0x1B (by decide) (by decide)

/-! ## Interrupt lookup -/

/-- The test `status & (1 << count)` of the scanning loops reads bit `count`. -/
theorem irq_bit_test (status count : Nat) (hc : count < 32) :
    status &&& wrap32 (1 <<< count) ≠ 0 ↔ status.testBit count = true := by
  have hlt : 2 ^ count < 2 ^ 32 := Nat.pow_lt_pow_right (by decide) hc
  rw [Nat.one_shiftLeft, wrap32_of_lt hlt, Nat.and_two_pow]
  have hpos : 0 < 2 ^ count := Nat.pos_pow_of_pos count (by decide)
  cases status.testBit count
  · simp
  · simp

theorem irq_scan_ge (status : Nat) :
    ∀ (fuel count : Nat), count ≤ irq_scan status fuel count := by
  intro fuel
  induction fuel with
  | zero => intro count; exact Nat.le_refl _
  | succ n ih =>
    intro count
    unfold irq_scan
    split
    · split
      · exact Nat.le_refl _
      · exact Nat.le_trans (Nat.le_succ count) (ih (count + 1))
    · exact Nat.le_refl _

/-- With enough fuel the scanning loop stops at the lowest set bit at or above
`count`, or at 32 when there is none. -/
theorem irq_scan_spec (status : Nat) :
    ∀ (fuel count : Nat), count ≤ 32 → 32 - count < fuel →
      irq_scan status fuel count ≤ 32 ∧
      (∀ j, count ≤ j → j < irq_scan status fuel count → status.testBit j = false) ∧
      (irq_scan status fuel count < 32 →
        status.testBit (irq_scan status fuel count) = true) := by
  intro fuel
  induction fuel with
  | zero => intro count _ hf; omega
  | succ n ih =>
    intro count hc hf
    unfold irq_scan
    by_cases h32 : count < 32
    · by_cases hbit : status &&& wrap32 (1 <<< count) ≠ 0
      · rw [if_pos h32, if_pos hbit]
        exact ⟨hc, fun j h1 h2 => by omega, fun _ => (irq_bit_test status count h32).mp hbit⟩
      · rw [if_pos h32, if_neg hbit]
        obtain ⟨h1, h2, h3⟩ := ih (count + 1) (by omega) (by omega)
        refine ⟨h1, ?_, h3⟩
        intro j hj1 hj2
        rcases Nat.eq_or_lt_of_le hj1 with he | hl
        · subst he
          cases hb : status.testBit count
          · rfl
          · exact absurd ((irq_bit_test status count h32).mpr hb) hbit
        · exact h2 j (by omega) hj2
    · rw [if_neg h32]
      exact ⟨hc, fun j h1 h2 => by omega, fun h => absurd h h32⟩

/-- The second loop advances `count` by as much as it advances `i`. -/
theorem irq_scan_sic_eq (status : Nat) :
    ∀ (fuel i count : Nat),
      irq_scan_sic status fuel i count = count + (irq_scan status fuel i - i) := by
  intro fuel
  induction fuel with
  | zero => intro i count; simp [irq_scan_sic, irq_scan]
  | succ n ih =>
    intro i count
    unfold irq_scan_sic irq_scan
    split
    · split
      · simp
      · rw [ih (i + 1) (count + 1)]
        have := irq_scan_ge status n (i + 1)
        omega
    · simp

theorem eq_zero_of_low_bits_clear (v : Nat) (hv : v < 2 ^ 32)
    (h : ∀ j, j < 32 → v.testBit j = false) : v = 0 := by
  refine eq_of_testBit32 hv (by decide) ?_
  intro i hi
  rw [h i hi, Nat.zero_testBit]

/-- C19: for 32-bit status words `v` (VIC) and `s` (SIC) and a constant
`IRQ_NONE` outside `0 .. 63`, `irq_get` returns either `IRQ_NONE` or a number
`k < 64`, never 31. If `k < 31`, bit `k` is the lowest set bit of `v`; if
`32 ≤ k < 64`, the lowest set bit of `v` is bit 31 and bit `k - 32` is the
lowest set bit of `s`. It returns `IRQ_NONE` exactly when `v = 0`, or the
lowest set bit of `v` is bit 31 and `s = 0`. -/
theorem irq_get_lowest_pending (IRQ_NONE v s : Nat) (hv : v < 2 ^ 32) (hs : s < 2 ^ 32)
    (hnone : 64 ≤ IRQ_NONE) :
    ∃ r, irq_get IRQ_NONE v s = r ∧
      (r = IRQ_NONE ∨ r < 64) ∧ r ≠ 31 ∧
      (r < 31 → v.testBit r = true ∧ ∀ j, j < r → v.testBit j = false) ∧
      (32 ≤ r → r < 64 →
        (v.testBit 31 = true ∧ ∀ j, j < 31 → v.testBit j = false) ∧
        s.testBit (r - 32) = true ∧ ∀ j, j < r - 32 → s.testBit j = false) ∧
      (r = IRQ_NONE ↔
        v = 0 ∨ ((v.testBit 31 = true ∧ ∀ j, j < 31 → v.testBit j = false) ∧ s = 0)) := by
  have hc := irq_scan_spec v 33 0 (by omega) (by omega)
  have hd := irq_scan_spec s 33 0 (by omega) (by omega)
  have hget : irq_get IRQ_NONE v s =
      if irq_scan v 33 0 < 31 then irq_scan v 33 0
      else if irq_scan v 33 0 > 31 then IRQ_NONE
      else if irq_scan v 33 0 + 1 + irq_scan s 33 0 ≥ 64 then IRQ_NONE
      else irq_scan v 33 0 + 1 + irq_scan s 33 0 := by
    unfold irq_get
    simp only [irq_scan_sic_eq, Nat.sub_zero]
  generalize irq_scan v 33 0 = c at hc hget
  generalize irq_scan s 33 0 = d at hd hget
  obtain ⟨hc1, hc2, hc3⟩ := hc
  obtain ⟨hd1, hd2, hd3⟩ := hd
  have hvne : ∀ k, v.testBit k = true → v ≠ 0 := by
    intro k hk h0
    rw [h0, Nat.zero_testBit] at hk
    exact absurd hk (by decide)
  have hsne : ∀ k, s.testBit k = true → s ≠ 0 := by
    intro k hk h0
    rw [h0, Nat.zero_testBit] at hk
    exact absurd hk (by decide)
  by_cases hlt : c < 31
  · have hbit := hc3 (by omega)
    refine ⟨c, by rw [hget, if_pos hlt], Or.inr (by omega), by omega,
      fun _ => ⟨hbit, fun j hj => hc2 j (Nat.zero_le j) hj⟩, fun h _ => by omega, ?_⟩
    constructor
    · intro h
      omega
    · intro h
      rcases h with h0 | ⟨⟨-, hlow⟩, -⟩
      · exact absurd h0 (hvne c hbit)
      · rw [hlow c hlt] at hbit
        exact absurd hbit (by decide)
  · by_cases hgt : c > 31
    · have hv0 : v = 0 :=
        eq_zero_of_low_bits_clear v hv (fun j hj => hc2 j (Nat.zero_le j) (by omega))
      refine ⟨IRQ_NONE, by rw [hget, if_neg hlt, if_pos hgt], Or.inl rfl, by omega,
        fun h => by omega, fun _ h => by omega, ?_⟩
      exact ⟨fun _ => Or.inl hv0, fun _ => rfl⟩
    · have hc31 : c = 31 := by omega
      subst hc31
      have hv31 : v.testBit 31 = true ∧ ∀ j, j < 31 → v.testBit j = false :=
        ⟨hc3 (by decide), fun j hj => hc2 j (Nat.zero_le j) hj⟩
      by_cases hfull : 31 + 1 + d ≥ 64
      · have hs0 : s = 0 :=
          eq_zero_of_low_bits_clear s hs (fun j hj => hd2 j (Nat.zero_le j) (by omega))
        refine ⟨IRQ_NONE, by rw [hget, if_neg hlt, if_neg hgt, if_pos hfull], Or.inl rfl,
          by omega, fun h => by omega, fun _ h => by omega, ?_⟩
        exact ⟨fun _ => Or.inr ⟨hv31, hs0⟩, fun _ => rfl⟩
      · have hdlt : d < 32 := by omega
        have hsbit := hd3 hdlt
        have hsub : 31 + 1 + d - 32 = d := by omega
        refine ⟨31 + 1 + d, by rw [hget, if_neg hlt, if_neg hgt, if_neg hfull],
          Or.inr (by omega), by omega, fun h => by omega, ?_, ?_⟩
        · intro _ _
          rw [hsub]
          exact ⟨hv31, hsbit, fun j hj => hd2 j (Nat.zero_le j) hj⟩
        · constructor
          · intro h
            omega
          · intro h
            rcases h with h0 | ⟨-, h0⟩
            · exact absurd h0 (hvne 31 hv31.1)
            · exact absurd h0 (hsne d hsbit)

/-- Witness for C19: VIC status with only bit 31 set, SIC status with bits 3
and 5 set, `IRQ_NONE = 64`; `irq_get` returns 35. -/
theorem irq_get_lowest_pending_witness :
    ∃ r, irq_get 64 0x80000000 0x28 = r ∧
      (r = 64 ∨ r < 64) ∧ r ≠ 31 ∧
      (r < 31 → Nat.testBit 0x80000000 r = true ∧ ∀ j, j < r → Nat.testBit 0x80000000 j = false) ∧
      (32 ≤ r → r < 64 →
        (Nat.testBit 0x80000000 31 = true ∧ ∀ j, j < 31 → Nat.testBit 0x80000000 j = false) ∧
        Nat.testBit 0x28 (r - 32) = true ∧ ∀ j, j < r - 32 → Nat.testBit 0x28 j = false) ∧
      (r = 64 ↔
        0x80000000 = 0 ∨
          ((Nat.testBit 0x80000000 31 = true ∧ ∀ j, j < 31 → Nat.testBit 0x80000000 j = false) ∧
            0x28 = 0)) :=
  irq_get_lowest_pending 64 0x80000000 0x28 (by decide) (by decide) (by decide)

/-! ## Page rounding macros -/

/-- Clearing the low `j` bits of a 32-bit value with a 32-bit complement mask
subtracts the remainder modulo `2 ^ j`. -/
theorem and_not32_low_mask (B j : Nat) (hB : B < 2 ^ 32) (hj : j ≤ 32) :
    B &&& not32 (2 ^ j - 1) = 2 ^ j * (B / 2 ^ j) := by
  have hm : 2 ^ j - 1 < 2 ^ 32 := by
    have : 2 ^ j ≤ 2 ^ 32 := Nat.pow_le_pow_right (by decide) hj
    have : 0 < 2 ^ j := Nat.pos_pow_of_pos j (by decide)
    omega
  have hall : (0xFFFFFFFF : Nat) = 2 ^ 32 - 1 := by decide
  apply Nat.eq_of_testBit_eq
  intro i
  rw [Nat.testBit_and, not32, wrap32_of_lt hm, Nat.testBit_xor, hall,
    Nat.testBit_two_pow_sub_one, Nat.testBit_two_pow_sub_one, Nat.testBit_mul_pow_two,
    ← Nat.shiftRight_eq_div_pow, Nat.testBit_shiftRight]
  by_cases h1 : i < j
  · have h2 : i < 32 := by omega
    have h3 : ¬ i ≥ j := by omega
    simp [h1, h2, h3]
  · have h3 : i ≥ j := by omega
    have h4 : j + (i - j) = i := by omega
    by_cases h2 : i < 32
    · simp [h1, h2, h3, h4]
    · have hbi : B.testBit i = false :=
        Nat.testBit_lt_two_pow (lt_of_lt_of_le hB (Nat.pow_le_pow_right (by decide) (by omega)))
      simp [h1, h2, h3, h4, hbi]

/-- The three page macros in arithmetic form, for a power-of-two page size. -/
theorem page_macros_arith (PS B j : Nat) (hpow : PS = 2 ^ j) (hB : B < 2 ^ 32)
    (hnw : B + PS < 2 ^ 32) :
    (IS_PAGE_ALIGNED PS B = true ↔ B % PS = 0) ∧
    TRUNC_PAGE PS B = PS * (B / PS) ∧
    ROUND_PAGE PS B = if B % PS = 0 then B else PS * (B / PS) + PS := by
  have hpos : 0 < PS := by
    rw [hpow]
    exact Nat.pos_pow_of_pos j (by decide)
  have hj : j ≤ 32 := by
    by_contra hcon
    have : 2 ^ 32 ≤ 2 ^ j := Nat.pow_le_pow_right (by decide) (by omega)
    omega
  have hsub : sub32 PS 1 = PS - 1 := by
    unfold sub32 wrap32 UINT32_MOD
    omega
  have hal : (IS_PAGE_ALIGNED PS B = true ↔ B % PS = 0) := by
    unfold IS_PAGE_ALIGNED
    rw [hsub, hpow, Nat.and_pow_two_sub_one_eq_mod]
    simp
  have htr : TRUNC_PAGE PS B = PS * (B / PS) := by
    unfold TRUNC_PAGE
    rw [hsub, hpow]
    exact and_not32_low_mask B j hB hj
  refine ⟨hal, htr, ?_⟩
  unfold ROUND_PAGE
  by_cases ha : B % PS = 0
  · rw [if_pos (hal.mpr ha), if_pos ha]
  · have hna : ¬ IS_PAGE_ALIGNED PS B = true := fun h => ha (hal.mp h)
    rw [if_neg hna, if_neg ha, htr]
    have hle : PS * (B / PS) ≤ B := Nat.mul_div_le B PS
    exact wrap32_of_lt (by omega)

/-- C20: for every `PAGESIZE` that is a power of two and every 32-bit `B`
with `B + PAGESIZE` not wrapping, `TRUNC_PAGE(B)` is the largest multiple of
`PAGESIZE` that is `≤ B`, `ROUND_PAGE(B)` is the smallest multiple of
`PAGESIZE` that is `≥ B`, and `ROUND_PAGE(B) = B` exactly when
`IS_PAGE_ALIGNED(B)` holds. -/
theorem page_macros_spec (PS B j : Nat) (hpow : PS = 2 ^ j) (hB : B < 2 ^ 32)
    (hnw : B + PS < 2 ^ 32) :
    (PS ∣ TRUNC_PAGE PS B ∧ TRUNC_PAGE PS B ≤ B ∧
      ∀ m, PS ∣ m → m ≤ B → m ≤ TRUNC_PAGE PS B) ∧
    (PS ∣ ROUND_PAGE PS B ∧ B ≤ ROUND_PAGE PS B ∧
      ∀ m, PS ∣ m → B ≤ m → ROUND_PAGE PS B ≤ m) ∧
    (ROUND_PAGE PS B = B ↔ IS_PAGE_ALIGNED PS B = true) := by
  obtain ⟨hal, htr, hro⟩ := page_macros_arith PS B j hpow hB hnw
  have hpos : 0 < PS := by
    rw [hpow]
    exact Nat.pos_pow_of_pos j (by decide)
  have hdm : PS * (B / PS) + B % PS = B := Nat.div_add_mod B PS
  have hmod : B % PS < PS := Nat.mod_lt B hpos
  refine ⟨⟨?_, ?_, ?_⟩, ⟨?_, ?_, ?_⟩, ?_⟩
  · rw [htr]
    exact Dvd.intro _ rfl
  · rw [htr]
    omega
  · intro m hm hle
    obtain ⟨q, rfl⟩ := hm
    rw [htr]
    exact Nat.mul_le_mul_left PS ((Nat.le_div_iff_mul_le hpos).mpr (by rw [Nat.mul_comm]; exact hle))
  · rw [hro]
    split
    · rename_i h0
      exact Nat.dvd_of_mod_eq_zero h0
    · exact Dvd.intro (B / PS + 1) (by rw [Nat.mul_add, Nat.mul_one])
  · rw [hro]
    split <;> omega
  · intro m hm hle
    obtain ⟨q, rfl⟩ := hm
    rw [hro]
    split
    · exact hle
    · rename_i hne
      have hq : B / PS < q := by
        by_contra hcon
        have h1 : q ≤ B / PS := Nat.le_of_not_lt hcon
        have h2 : PS * q ≤ PS * (B / PS) := Nat.mul_le_mul_left PS h1
        omega
      have h3 : PS * (B / PS + 1) ≤ PS * q := Nat.mul_le_mul_left PS hq
      rw [Nat.mul_add, Nat.mul_one] at h3
      exact h3
  · rw [hro]
    constructor
    · intro h
      apply hal.mpr
      by_contra hne
      rw [if_neg hne] at h
      omega
    · intro h
      rw [if_pos (hal.mp h)]

/-- Witness for C20: 4 KiB pages and the address `0xFF1080C0`. -/
theorem page_macros_spec_witness :
    (4096 ∣ TRUNC_PAGE 4096 0xFF1080C0 ∧ TRUNC_PAGE 4096 0xFF1080C0 ≤ 0xFF1080C0 ∧
      ∀ m, 4096 ∣ m → m ≤ 0xFF1080C0 → m ≤ TRUNC_PAGE 4096 0xFF1080C0) ∧
    (4096 ∣ ROUND_PAGE 4096 0xFF1080C0 ∧ 0xFF1080C0 ≤ ROUND_PAGE 4096 0xFF1080C0 ∧
      ∀ m, 4096 ∣ m → 0xFF1080C0 ≤ m → ROUND_PAGE 4096 0xFF1080C0 ≤ m) ∧
    (ROUND_PAGE 4096 0xFF1080C0 = 0xFF1080C0 ↔ IS_PAGE_ALIGNED 4096 0xFF1080C0 = true) :=
  page_macros_spec 4096 0xFF1080C0 12 (by decide) (by decide) (by decide)

end ArmKernel
